import Mathlib

/-!
# Restaurant order and billing engine (`restrauntBilling.c`)

A shallow embedding of the order and billing engine of `restrauntBilling.c`:
the menu catalog, the order store, the table registry, the order mutators and
the bill calculator, followed by the properties proved about them.

Representation choices:

* a C string is a Lean `String` whose characters are the C `char`s; `strcmp(a, b) == 0`
  is equality;
* a C `int` is an `Int`; an `int` sum that can leave the 32-bit range is reduced by
  `wrap32` (two's complement, arithmetic modulo `2 ^ 32`);
* a C `float` is a binary32 value `F32`: a finite value (an exact rational number), an
  infinity or NaN; every `float` operation is the exact operation followed by rounding
  to the nearest binary32 value, ties to even (`F32.round`), each operation rounded on
  its own in `float` precision; the sign of a zero is not kept, no operation of the
  program can observe it; a catalog price is the finite value of its `float`;
* an array with its element counter (`menuList`/`menuCount`, `orders`/`orderCount`,
  `items`/`itemCount`) is the list of its first `count` slots, so the counter is
  the length of the list; the capacity checks of the source are kept.
-/

namespace RestaurantBilling

/-! ## Constants -/

def MAX_MENU : Nat := 80
def MAX_ORDERS : Nat := 500
def MAX_ITEMS_PER_ORDER : Nat := 60
def MAX_TABLES : Nat := 50
/-- Size of a code buffer, including the terminating NUL. -/
def CODE_LEN : Nat := 6
def NAME_LEN : Nat := 64

/-! ## Machine integers and strings -/

/-- Two's complement reduction of an integer to the range of a 32-bit C `int`. -/
def wrap32 (x : Int) : Int := (x + 2147483648) % 4294967296 - 2147483648

/-- The values a C `int` can hold. -/
def isInt32 (x : Int) : Prop := -2147483648 ≤ x ∧ x ≤ 2147483647

instance (x : Int) : Decidable (isInt32 x) := by
  unfold isInt32; exact inferInstance

/-- The effect of `strncpy(dst, src, n); dst[n] = 0`: at most `n` characters are kept. -/
def strncpy (src : String) (n : Nat) : String := ⟨src.data.take n⟩

/-! ## Binary32 arithmetic -/

/-- The power `2 ^ k` as a rational number. -/
def pow2 (k : Int) : ℚ :=
  if 0 ≤ k then ((2 ^ k.toNat : Nat) : ℚ) else 1 / ((2 ^ (-k).toNat : Nat) : ℚ)

/-- Halving loop of `natLog2`, with a step bound. -/
def log2Fuel : Nat → Nat → Nat
  | 0, _ => 0
  | fuel + 1, n => if n < 2 then 0 else log2Fuel fuel (n / 2) + 1

/-- The integer part of the base-2 logarithm of `n ≥ 1` (0 for `n = 0`). -/
def natLog2 (n : Nat) : Nat := log2Fuel n n

/-- The binary exponent of a nonzero rational: the `k` with `2 ^ k ≤ |x| < 2 ^ (k + 1)`. -/
def ilog2 (x : ℚ) : Int :=
  let k : Int := (natLog2 x.num.natAbs : Int) - (natLog2 x.den : Int)
  if pow2 k ≤ |x| then k else k - 1

/-- Round to the nearest integer, ties to the even one. -/
def roundHalfEven (q : ℚ) : Int :=
  if q - (⌊q⌋ : ℚ) < 1 / 2 then ⌊q⌋
  else if 1 / 2 < q - (⌊q⌋ : ℚ) then ⌊q⌋ + 1
  else if ⌊q⌋ % 2 = 0 then ⌊q⌋ else ⌊q⌋ + 1

/-- Round an exact value to the binary32 grid, exponent unbounded above: nearest
multiple of `2 ^ e`, ties to even, where `e` leaves a 24-bit significand and is at
least -149 (the subnormal step). -/
def roundQ (x : ℚ) : ℚ :=
  if x = 0 then 0
  else
    (roundHalfEven (x / pow2 (max (ilog2 x - 23) (-149))) : ℚ)
      * pow2 (max (ilog2 x - 23) (-149))

/-- A binary32 (`float`) value: finite with its exact value, an infinity, or NaN. -/
inductive F32 where
  | fin (v : ℚ)
  | pinf
  | ninf
  | nan
  deriving DecidableEq

/-- Round an exact value to binary32, round-to-nearest-even: a result of magnitude
`2 ^ 128` or more overflows to an infinity. -/
def F32.round (x : ℚ) : F32 :=
  if pow2 128 ≤ roundQ x then F32.pinf
  else if roundQ x ≤ -pow2 128 then F32.ninf
  else F32.fin (roundQ x)

/-- The conversion `(float)n` of an `int`. -/
def F32.ofInt (n : Int) : F32 := F32.round (n : ℚ)

/-- The `float` negation. -/
def F32.neg : F32 → F32
  | .fin v => .fin (-v)
  | .pinf => .ninf
  | .ninf => .pinf
  | .nan => .nan

/-- The `float` addition `a + b`. -/
def F32.add (a b : F32) : F32 :=
  match a, b with
  | .fin x, .fin y => F32.round (x + y)
  | .fin _, .pinf => .pinf
  | .fin _, .ninf => .ninf
  | .pinf, .fin _ => .pinf
  | .pinf, .pinf => .pinf
  | .pinf, .ninf => .nan
  | .ninf, .fin _ => .ninf
  | .ninf, .ninf => .ninf
  | .ninf, .pinf => .nan
  | .nan, _ => .nan
  | .fin _, .nan => .nan
  | .pinf, .nan => .nan
  | .ninf, .nan => .nan

/-- The `float` subtraction `a - b`. -/
def F32.sub (a b : F32) : F32 := F32.add a (F32.neg b)

/-- The product of an infinity of the given sign with the finite value `x`. -/
def F32.mulInf (positive : Bool) (x : ℚ) : F32 :=
  if x = 0 then .nan
  else if (0 < x) = positive then .pinf else .ninf

/-- The `float` multiplication `a * b`. -/
def F32.mul (a b : F32) : F32 :=
  match a, b with
  | .fin x, .fin y => F32.round (x * y)
  | .fin x, .pinf => F32.mulInf true x
  | .fin x, .ninf => F32.mulInf false x
  | .pinf, .fin y => F32.mulInf true y
  | .ninf, .fin y => F32.mulInf false y
  | .pinf, .pinf => .pinf
  | .pinf, .ninf => .ninf
  | .ninf, .pinf => .ninf
  | .ninf, .ninf => .pinf
  | .nan, _ => .nan
  | .fin _, .nan => .nan
  | .pinf, .nan => .nan
  | .ninf, .nan => .nan

/-- The `float` comparison `a > b` (false as soon as an operand is NaN). -/
def F32.gt (a b : F32) : Bool :=
  match a, b with
  | .fin x, .fin y => decide (y < x)
  | .fin _, .ninf => true
  | .pinf, .fin _ => true
  | .pinf, .ninf => true
  | _, _ => false

/-! ## Rates and thresholds -/

/-- The literal `0.05f`. -/
def GST_RATE_FOOD : F32 := F32.round (5 / 100)
/-- The literal `0.10f`. -/
def SERVICE_RATE : F32 := F32.round (10 / 100)
/-- The literal `1000.0f`. -/
def DISCOUNT_TIER1_THRESHOLD : F32 := F32.round 1000
/-- The literal `0.10f`. -/
def DISCOUNT_TIER1_RATE : F32 := F32.round (10 / 100)
/-- The literal `2000.0f`. -/
def DISCOUNT_TIER2_THRESHOLD : F32 := F32.round 2000
/-- The literal `0.15f`. -/
def DISCOUNT_TIER2_RATE : F32 := F32.round (15 / 100)

/-! ## Data model -/

inductive Category where
  | STARTER
  | MAIN_COURSE
  | BEVERAGE
  | DESSERT
  deriving DecidableEq, Repr

structure MenuItem where
  code : String
  name : String
  category : Category
  price : ℚ
  /-- Availability flag: 1 = available, 0 = not available. -/
  available : Int
  deriving DecidableEq

structure OrderItem where
  code : String
  qty : Int
  deriving DecidableEq, Repr

structure Order where
  /-- The KOT number. -/
  orderId : Int
  /-- Kind flag: 1 dine-in, 0 takeaway. -/
  dineIn : Int
  /-- Table number: 1..MAX_TABLES if dine-in else 0. -/
  tableNumber : Int
  /-- The slots `items[0 .. itemCount-1]`. -/
  items : List OrderItem
  timestamp : Int
  /-- Activity flag: 1 = active, 0 = billed/closed. -/
  active : Int
  deriving DecidableEq, Repr

/-- The counter `itemCount` of an order. -/
def Order.itemCount (o : Order) : Nat := o.items.length

structure Bill where
  subtotal : F32
  gst : F32
  serviceCharge : F32
  discount : F32
  total : F32
  deriving DecidableEq

/-- The global storage of the program. -/
structure State where
  /-- The slots `menuList[0 .. menuCount-1]`. -/
  menuList : List MenuItem
  /-- The slots `orders[0 .. orderCount-1]`. -/
  orders : List Order
  nextOrderId : Int
  /-- The array `tableOrderIndex`: -1 if free else the index of the order. -/
  tableOrderIndex : List Int
  deriving DecidableEq

def State.menuCount (s : State) : Nat := s.menuList.length

def State.orderCount (s : State) : Nat := s.orders.length

/-! ## Menu catalog -/

/-- The storage before `main` runs: the static initialisers of the globals. -/
def bootState : State :=
  { menuList := [], orders := [], nextOrderId := 9001,
    tableOrderIndex := List.replicate MAX_TABLES 0 }

def addMenuItem (s : State) (code name : String) (cat : Category) (price : ℚ) (avail : Int) :
    State :=
  if s.menuCount ≥ MAX_MENU then s
  else
    { s with menuList := s.menuList ++
        [{ code := strncpy code (CODE_LEN - 1), name := strncpy name (NAME_LEN - 1),
           category := cat, price := price, available := if avail ≠ 0 then 1 else 0 }] }

/-- The seed catalog of `initMenu`, in the order of its `addMenuItem` calls. -/
def seedItems : List (String × String × Category × ℚ) :=
  [ ("S01", "Garlic Bread", Category.STARTER, 120),
    ("S02", "Veg Spring Roll", Category.STARTER, 140),
    ("S03", "Chicken Tikka", Category.STARTER, 260),
    ("S04", "Paneer Tikka", Category.STARTER, 220),
    ("S05", "French Fries", Category.STARTER, 130),
    ("S06", "Chicken Wings", Category.STARTER, 290),
    ("S07", "Masala Papad", Category.STARTER, 60),
    ("M01", "Butter Chicken", Category.MAIN_COURSE, 320),
    ("M02", "Paneer Butter Masala", Category.MAIN_COURSE, 300),
    ("M03", "Hyderabadi Chicken Biryani", Category.MAIN_COURSE, 280),
    ("M04", "Veg Biryani", Category.MAIN_COURSE, 240),
    ("M05", "Margherita Pizza", Category.MAIN_COURSE, 350),
    ("M06", "Farmhouse Pizza", Category.MAIN_COURSE, 420),
    ("M07", "Grilled Fish", Category.MAIN_COURSE, 380),
    ("M08", "Chicken Fried Rice", Category.MAIN_COURSE, 220),
    ("M09", "Mixed Veg Curry + Roti", Category.MAIN_COURSE, 180),
    ("B01", "Masala Chai", Category.BEVERAGE, 40),
    ("B02", "Cold Coffee", Category.BEVERAGE, 120),
    ("B03", "Mango Lassi", Category.BEVERAGE, 110),
    ("B04", "Soft Drink (500ml)", Category.BEVERAGE, 80),
    ("B05", "Lemonade", Category.BEVERAGE, 85),
    ("B06", "Mineral Water (1L)", Category.BEVERAGE, 50),
    ("D01", "Gulab Jamun (2 pcs)", Category.DESSERT, 90),
    ("D02", "Brownie with Ice Cream", Category.DESSERT, 210),
    ("D03", "Rasmalai (2 pcs)", Category.DESSERT, 130),
    ("D04", "Fruit Salad", Category.DESSERT, 150),
    ("D05", "Kulfi", Category.DESSERT, 110),
    ("D06", "Ice Cream Scoop", Category.DESSERT, 70),
    ("D07", "Jalebi (2 pcs)", Category.DESSERT, 95) ]

/-- The function `initMenu`: the 29 `addMenuItem` calls, then every table marked free. -/
def initMenu (s : State) : State :=
  let s1 := seedItems.foldl (fun st it => addMenuItem st it.1 it.2.1 it.2.2.1 it.2.2.2 1) s
  { s1 with tableOrderIndex := List.replicate MAX_TABLES (-1) }

/-- The state in which the interactive loop starts. -/
def initState : State := initMenu bootState

/-- Find index in `menuList` by code, -1 if not found: the first slot whose code
compares equal. -/
def findMenuIndexByCode : List MenuItem → String → Int
  | [], _ => -1
  | m :: ms, code =>
    if m.code = code then 0
    else
      let r := findMenuIndexByCode ms code
      if r = -1 then -1 else r + 1

/-! ## Bill calculator -/

/-- The loop of `calculateBill` over the order lines, carrying `b.subtotal` and
`foodSubtotal`. -/
def billLoop (menu : List MenuItem) : List OrderItem → F32 → F32 → F32 × F32
  | [], subtotal, foodSubtotal => (subtotal, foodSubtotal)
  | it :: rest, subtotal, foodSubtotal =>
    let m := findMenuIndexByCode menu it.code
    if m = -1 then billLoop menu rest subtotal foodSubtotal
    else
      match menu[m.toNat]? with
      | none => billLoop menu rest subtotal foodSubtotal
      | some mi =>
        let line := F32.mul (F32.fin mi.price) (F32.ofInt it.qty)
        billLoop menu rest (F32.add subtotal line)
          (if mi.category ≠ Category.BEVERAGE then F32.add foodSubtotal line
           else foodSubtotal)

/-- The body of `calculateBill` once the order is in hand. -/
def billOf (menu : List MenuItem) (o : Order) : Bill :=
  let acc := billLoop menu o.items (F32.fin 0) (F32.fin 0)
  let subtotal := acc.1
  let gst := F32.mul acc.2 GST_RATE_FOOD
  let serviceCharge := if o.dineIn ≠ 0 then F32.mul subtotal SERVICE_RATE else F32.fin 0
  let temp := F32.add (F32.add subtotal gst) serviceCharge
  let discount :=
    if F32.gt temp DISCOUNT_TIER2_THRESHOLD then F32.mul temp DISCOUNT_TIER2_RATE
    else if F32.gt temp DISCOUNT_TIER1_THRESHOLD then F32.mul temp DISCOUNT_TIER1_RATE
    else F32.fin 0
  { subtotal := subtotal, gst := gst, serviceCharge := serviceCharge,
    discount := discount, total := F32.sub temp discount }

/-- Calculate bill. GST applied only on non-beverage items. -/
def calculateBill (s : State) (orderIdx : Int) : Bill :=
  if orderIdx < 0 ∨ orderIdx ≥ s.orderCount then
    ⟨F32.fin 0, F32.fin 0, F32.fin 0, F32.fin 0, F32.fin 0⟩
  else
    match s.orders[orderIdx.toNat]? with
    | none => ⟨F32.fin 0, F32.fin 0, F32.fin 0, F32.fin 0, F32.fin 0⟩
    | some o => billOf s.menuList o

/-! ## Order store, table registry and order mutators -/

/-- Store `o` in slot `n` of `orders`. -/
def setOrder (s : State) (n : Nat) (o : Order) : State :=
  { s with orders := s.orders.set n o }

/-- Create a new order; returns order index in `orders[]` or -1 on fail.
`now` is the value of `time(NULL)`. -/
def createOrder (s : State) (dineIn tableNumber : Int) (now : Int) : Int × State :=
  if s.orderCount ≥ MAX_ORDERS then (-1, s)
  else if dineIn ≠ 0 ∧ (tableNumber < 1 ∨ tableNumber > MAX_TABLES) then (-1, s)
  else if dineIn ≠ 0 ∧ s.tableOrderIndex[(tableNumber - 1).toNat]? ≠ some (-1) then (-1, s)
  else
    let idx : Int := s.orderCount
    let o : Order :=
      { orderId := s.nextOrderId,
        dineIn := if dineIn ≠ 0 then 1 else 0,
        tableNumber := if dineIn ≠ 0 then tableNumber else 0,
        items := [],
        timestamp := now,
        active := 1 }
    (idx,
     { s with
        orders := s.orders ++ [o],
        nextOrderId := wrap32 (s.nextOrderId + 1),
        tableOrderIndex :=
          if dineIn ≠ 0 then s.tableOrderIndex.set (tableNumber - 1).toNat idx
          else s.tableOrderIndex })

/-- The merge loop of `addItemToOrder`: the first line carrying `code` has its
quantity increased by `qty`; `none` when the loop ends without a match. -/
def incrementQty : List OrderItem → String → Int → Option (List OrderItem)
  | [], _, _ => none
  | it :: rest, code, qty =>
    if it.code = code then some ({ it with qty := wrap32 (it.qty + qty) } :: rest)
    else (incrementQty rest code qty).map (fun r => it :: r)

/-- Add item to order (append or increase qty if exists).
Returns 0 on success, -1 invalid, -2 if full order items. -/
def addItemToOrder (s : State) (orderIdx : Int) (code : String) (qty : Int) : Int × State :=
  if qty ≤ 0 then (-1, s)
  else if orderIdx < 0 ∨ orderIdx ≥ s.orderCount then (-1, s)
  else
    match s.orders[orderIdx.toNat]? with
    | none => (-1, s)
    | some o =>
      if o.active = 0 then (-1, s)
      else
        let midx := findMenuIndexByCode s.menuList code
        if midx = -1 then (-1, s)
        else
          match s.menuList[midx.toNat]? with
          | none => (-1, s)
          | some m =>
            if m.available = 0 then (-1, s)
            else
              match incrementQty o.items code qty with
              | some items1 => (0, setOrder s orderIdx.toNat { o with items := items1 })
              | none =>
                if o.itemCount ≥ MAX_ITEMS_PER_ORDER then (-2, s)
                else
                  (0, setOrder s orderIdx.toNat
                    { o with items := o.items ++ [⟨strncpy code (CODE_LEN - 1), qty⟩] })

/-- The search-and-shift loop of `removeItemFromOrder`: the first line carrying
`code` is dropped and the later lines move one slot left; `none` when no line
carries `code`. -/
def shiftOut : List OrderItem → String → Option (List OrderItem)
  | [], _ => none
  | it :: rest, code =>
    if it.code = code then some rest
    else (shiftOut rest code).map (fun r => it :: r)

/-- Remove item from order by code. Returns 0 success, -1 not found. -/
def removeItemFromOrder (s : State) (orderIdx : Int) (code : String) : Int × State :=
  if orderIdx < 0 ∨ orderIdx ≥ s.orderCount then (-1, s)
  else
    match s.orders[orderIdx.toNat]? with
    | none => (-1, s)
    | some o =>
      if o.active = 0 then (-1, s)
      else
        match shiftOut o.items code with
        | some items1 => (0, setOrder s orderIdx.toNat { o with items := items1 })
        | none => (-1, s)

/-- The in-place assignment of `updateItemQtyInOrder`: the first line carrying
`code` gets quantity `newQty`; `none` when no line carries `code`. -/
def assignQty : List OrderItem → String → Int → Option (List OrderItem)
  | [], _, _ => none
  | it :: rest, code, newQty =>
    if it.code = code then some ({ it with qty := newQty } :: rest)
    else (assignQty rest code newQty).map (fun r => it :: r)

/-- Update quantity of an item in order. `newQty <= 0` removes the item.
Returns 0 success, -1 not found. -/
def updateItemQtyInOrder (s : State) (orderIdx : Int) (code : String) (newQty : Int) :
    Int × State :=
  if orderIdx < 0 ∨ orderIdx ≥ s.orderCount then (-1, s)
  else
    match s.orders[orderIdx.toNat]? with
    | none => (-1, s)
    | some o =>
      if o.active = 0 then (-1, s)
      else if ∃ it ∈ o.items, it.code = code then
        if newQty ≤ 0 then removeItemFromOrder s orderIdx code
        else
          match assignQty o.items code newQty with
          | some items1 => (0, setOrder s orderIdx.toNat { o with items := items1 })
          | none => (-1, s)
      else (-1, s)

/-- The state change of `printBill` (its output to the screen and to the receipt
file left aside): an active order is marked closed and, if dine-in, its table is
freed; an invalid index or a closed order changes nothing. -/
def printBill (s : State) (orderIdx : Int) : State :=
  if orderIdx < 0 ∨ orderIdx ≥ s.orderCount then s
  else
    match s.orders[orderIdx.toNat]? with
    | none => s
    | some o =>
      if o.active = 0 then s
      else
        let s1 := setOrder s orderIdx.toNat { o with active := 0 }
        if o.dineIn ≠ 0 ∧ o.tableNumber ≥ 1 ∧ o.tableNumber ≤ MAX_TABLES then
          { s1 with tableOrderIndex := s1.tableOrderIndex.set (o.tableNumber - 1).toNat (-1) }
        else s1

/-- Option 7 of the interactive loop: flip the availability flag of the menu item
carrying `code`; an unknown code changes nothing. -/
def toggleAvailability (s : State) (code : String) : State :=
  let m := findMenuIndexByCode s.menuList code
  if m = -1 then s
  else
    match s.menuList[m.toNat]? with
    | none => s
    | some mi =>
      { s with menuList :=
          s.menuList.set m.toNat ({ mi with available := if mi.available = 0 then 1 else 0 }) }

/-! ## Sessions -/

/-- The engine operations an interactive session can issue. -/
inductive Op where
  | createOrder (dineIn tableNumber now : Int)
  | addItemToOrder (orderIdx : Int) (code : String) (qty : Int)
  | removeItemFromOrder (orderIdx : Int) (code : String)
  | updateItemQtyInOrder (orderIdx : Int) (code : String) (newQty : Int)
  | toggleAvailability (code : String)
  | printBill (orderIdx : Int)
  deriving DecidableEq

/-- The `int` arguments of an operation are values of a 32-bit `int`. -/
def Op.wellTyped : Op → Prop
  | .createOrder d t _ => isInt32 d ∧ isInt32 t
  | .addItemToOrder i _ q => isInt32 i ∧ isInt32 q
  | .removeItemFromOrder i _ => isInt32 i
  | .updateItemQtyInOrder i _ q => isInt32 i ∧ isInt32 q
  | .toggleAvailability _ => True
  | .printBill i => isInt32 i

instance (op : Op) : Decidable op.wellTyped := by
  cases op <;> unfold Op.wellTyped <;> exact inferInstance

/-- Run one operation: the value it returns (0 for the two `void` ones) and the
state it leaves. -/
def step (s : State) : Op → Int × State
  | .createOrder d t now => createOrder s d t now
  | .addItemToOrder i c q => addItemToOrder s i c q
  | .removeItemFromOrder i c => removeItemFromOrder s i c
  | .updateItemQtyInOrder i c q => updateItemQtyInOrder s i c q
  | .toggleAvailability c => (0, toggleAvailability s c)
  | .printBill i => (0, printBill s i)

/-- Run a sequence of operations from `s`. -/
def run (s : State) : List Op → State
  | [] => s
  | op :: ops => run (step s op).2 ops

/-- The states a session can be in: those reached from the state left by
`initMenu` by a sequence of operations with `int` arguments. -/
inductive Reachable : State → Prop where
  | init : Reachable initState
  | step {s : State} (op : Op) : Reachable s → op.wellTyped → Reachable (step s op).2

/-! ## Reference definitions for the bill calculator -/

/-- The amount before discount of a bill, as `calculateBill` computes its `temp`:
the `float` sum `subtotal + gst + serviceCharge`, added left to right. -/
def Bill.preDiscount (b : Bill) : F32 := F32.add (F32.add b.subtotal b.gst) b.serviceCharge

/-- A price in whole rupees that is a positive multiple of 5, as every seed price is. -/
def PriceStep5 (p : ℚ) : Prop := 0 < p ∧ (p / 5).den = 1

instance (p : ℚ) : Decidable (PriceStep5 p) := by
  unfold PriceStep5; exact inferInstance

/-- Reference: the catalog entry a code resolves to, the first one carrying it. -/
def refLookup (menu : List MenuItem) (code : String) : Option MenuItem :=
  menu.find? (fun m => decide (m.code = code))

/-- Reference: `price(code)`, the price of the catalog entry of `code`. -/
def refPrice (menu : List MenuItem) (code : String) : ℚ :=
  match refLookup menu code with
  | some m => m.price
  | none => 0

/-- Reference: the line amount `price(code) × qty`. -/
def refLineAmount (menu : List MenuItem) (it : OrderItem) : ℚ :=
  refPrice menu it.code * (it.qty : ℚ)

/-- Reference: whether the line's catalog entry has a category other than Beverage. -/
def refIsFood (menu : List MenuItem) (it : OrderItem) : Bool :=
  match refLookup menu it.code with
  | some m => decide (m.category ≠ Category.BEVERAGE)
  | none => false

/-- Reference: `subtotal = Σ over lines of price(code) × qty`. -/
def refSubtotal (menu : List MenuItem) (o : Order) : ℚ :=
  (o.items.map (refLineAmount menu)).sum

/-- Reference: `gst = 0.05 × (Σ line amounts with category ≠ Beverage)`. -/
def refGst (menu : List MenuItem) (o : Order) : ℚ :=
  5 / 100 * ((o.items.filter (refIsFood menu)).map (refLineAmount menu)).sum

/-- Reference: `service = 0.10 × subtotal` for a dine-in order, 0 for takeaway. -/
def refService (menu : List MenuItem) (o : Order) : ℚ :=
  if o.dineIn ≠ 0 then 10 / 100 * refSubtotal menu o else 0

/-! ## Effects of the operations and session invariants -/

/-- What one successful mutator call does to the lines of an order: a merge into
an existing line, an append of a new line for a catalog code, a removal, or an
in-place quantity assignment. -/
def LinesStep (menu : List MenuItem) (items items1 : List OrderItem) : Prop :=
  (∃ c q, 0 < q ∧ incrementQty items c q = some items1) ∨
  (∃ c q, 0 < q ∧ (∃ m ∈ menu, m.code = c) ∧ incrementQty items c q = none ∧
    items.length < 60 ∧ items1 = items ++ [⟨strncpy c 5, q⟩]) ∨
  (∃ c, shiftOut items c = some items1) ∨
  (∃ c q, 0 < q ∧ assignQty items c q = some items1)

/-- The state a successful `createOrder` leaves. -/
def createdState (s : State) (d t now : Int) : State :=
  { s with
    orders := s.orders ++
      [{ orderId := s.nextOrderId, dineIn := if d ≠ 0 then 1 else 0,
         tableNumber := if d ≠ 0 then t else 0, items := [], timestamp := now,
         active := 1 }],
    nextOrderId := wrap32 (s.nextOrderId + 1),
    tableOrderIndex :=
      if d ≠ 0 then s.tableOrderIndex.set (t - 1).toNat (s.orders.length : Int)
      else s.tableOrderIndex }

/-- The state `printBill` leaves when it closes the active order `o` of slot `n`. -/
def billedState (s : State) (n : Nat) (o : Order) : State :=
  { s with
    orders := s.orders.set n { o with active := 0 },
    tableOrderIndex :=
      if o.dineIn ≠ 0 ∧ o.tableNumber ≥ 1 ∧ o.tableNumber ≤ 50 then
        s.tableOrderIndex.set (o.tableNumber - 1).toNat (-1)
      else s.tableOrderIndex }

/-- The ways one operation can change the state: not at all, by a successful
`createOrder`, by changing the lines of one active order, by flipping one
availability flag, or by closing one active order. -/
def StepEffect (s s1 : State) : Prop :=
  s1 = s ∨
  (∃ d t now, s.orders.length < 500 ∧
    (d ≠ 0 → 1 ≤ t ∧ t ≤ 50 ∧ s.tableOrderIndex[(t - 1).toNat]? = some (-1)) ∧
    s1 = createdState s d t now) ∨
  (∃ n o items1, s.orders[n]? = some o ∧ o.active ≠ 0 ∧
    s1 = setOrder s n { o with items := items1 } ∧ LinesStep s.menuList o.items items1) ∨
  (∃ n mi, s.menuList[n]? = some mi ∧
    s1 = { s with menuList :=
      s.menuList.set n ({ mi with available := if mi.available = 0 then 1 else 0 }) }) ∨
  (∃ n o, s.orders[n]? = some o ∧ o.active ≠ 0 ∧ s1 = billedState s n o)

/-- Table registry invariant: the registry has `MAX_TABLES` entries and every active
dine-in order sits at a valid table whose entry is the order's own index. -/
def TablesConsistent (s : State) : Prop :=
  s.tableOrderIndex.length = 50 ∧
  ∀ (i : Nat) (o : Order), s.orders[i]? = some o → o.active ≠ 0 → o.dineIn ≠ 0 →
    1 ≤ o.tableNumber ∧ o.tableNumber ≤ 50 ∧
      s.tableOrderIndex[(o.tableNumber - 1).toNat]? = some (i : Int)

/-- Order id invariant: ids are handed out consecutively from 9001. -/
def IdsSequential (s : State) : Prop :=
  s.nextOrderId = 9001 + (s.orders.length : Int) ∧ s.orders.length ≤ 500 ∧
  ∀ (k : Nat) (o : Order), s.orders[k]? = some o → o.orderId = 9001 + (k : Int)

/-- The catalog codes fit the `char code[CODE_LEN]` buffer. -/
def MenuCodesFit (s : State) : Prop :=
  ∀ m ∈ s.menuList, m.code.length ≤ 5

/-- Line invariant: no order has two lines with the same code. -/
def LinesDistinct (s : State) : Prop :=
  ∀ o ∈ s.orders, (o.items.map OrderItem.code).Nodup

/-! ## Example sessions -/

/-- A takeaway session with one beverage line `B01 × q`. -/
def chaiSession (q : Int) : State :=
  run initState [.createOrder 0 0 0, .addItemToOrder 0 "B01" q]

/-- Scenario 3 of the specification: dine-in at table 1, `M06 × 4` and `B04 × 1`. -/
def scenario3 : State :=
  run initState [.createOrder 1 1 0, .addItemToOrder 0 "M06" 4, .addItemToOrder 0 "B04" 1]

/-- Two dine-in orders opened at tables 3 and 4. -/
def twoTables : State :=
  run initState [.createOrder 1 3 0, .createOrder 1 4 0]

/-- A takeaway order with two lines, one of them merged twice. -/
def mergedSession : State :=
  run initState [.createOrder 0 0 0, .addItemToOrder 0 "S03" 1, .addItemToOrder 0 "B01" 2,
    .addItemToOrder 0 "S03" 2]

/-- Scenario 5 of the specification: a dine-in order opened at table 7. -/
def tableSeven : State := (createOrder initState 1 7 0).2

/-- A session whose first order, dine-in at table 2 with one line, has been billed,
followed by a takeaway order. -/
def billedSession : State :=
  run initState [.createOrder 1 2 0, .addItemToOrder 0 "M01" 2, .printBill 0,
    .createOrder 0 0 5]

/-- A takeaway order with no lines yet. -/
def emptyOrderSession : State := run initState [.createOrder 0 0 0]

/-- A session in which the line `S01` of a takeaway order is merged past the largest
`int`: `S01 × 2147483647`, then `S01 × 1`. -/
def overflowSession : State :=
  run initState [.createOrder 0 0 0, .addItemToOrder 0 "S01" 2147483647,
    .addItemToOrder 0 "S01" 1]

/-! ## Catalog invariants -/

/-- The codes of the seed catalog, in the order of `initMenu`. -/
def seedCodes : List String := seedItems.map (fun it => it.1)

/-- The catalog still lists the seed items: codes, names, categories and prices are
those stored by `initMenu` (only availability flags may differ). -/
def CatalogFixed (s : State) : Prop :=
  s.menuList.map (fun m => (m.code, m.name, m.category, m.price)) =
    initState.menuList.map (fun m => (m.code, m.name, m.category, m.price))

/-- Every line of every order carries a code of the catalog. -/
def LinesInCatalog (s : State) : Prop :=
  ∀ o ∈ s.orders, ∀ it ∈ o.items, it.code ∈ s.menuList.map MenuItem.code

/-- A takeaway order with the line `S01 × 2`, after which `S01` was switched to
unavailable. -/
def unavailableSession : State :=
  run initState [.createOrder 0 0 0, .addItemToOrder 0 "S01" 2, .toggleAvailability "S01"]

/-! ## Receipt item table -/

/-- The `printf` conversion `%-ws` (and `%-wd` once the number is in digits): the
text left-justified in a field of at least `w` characters, padded with blanks on the
right; with no precision given, a longer text is written in full. -/
def fmtLeft (w : Nat) (text : String) : String :=
  text ++ ⟨List.replicate (w - text.length) ' '⟩

/-- One row of the item table, `"%-6s %-25s %-6d %-8.2f\n"`: the three text columns as
written, and the `float` amount handed to `%-8.2f`. -/
structure ReceiptRow where
  /-- Column `Code`, `%-6s` of `menuList[m].code`. -/
  code : String
  /-- Column `Item`, `%-25s` of `menuList[m].name`. -/
  item : String
  /-- Column `Qty`, `%-6d` of the line quantity. -/
  qty : String
  /-- The `float` value `line` printed by `%-8.2f`. -/
  amount : F32

/-- The body of the item loop of `printBill` and `saveReceiptToFile` for one order
line: no row when the code does not resolve (`continue`). -/
def receiptRow (menu : List MenuItem) (it : OrderItem) : Option ReceiptRow :=
  let m := findMenuIndexByCode menu it.code
  if m = -1 then none
  else
    match menu[m.toNat]? with
    | none => none
    | some mi =>
      some { code := fmtLeft 6 mi.code, item := fmtLeft 25 mi.name,
             qty := fmtLeft 6 (toString it.qty), amount := F32.mul (F32.fin mi.price) (F32.ofInt it.qty) }

/-- The item loop of `printBill` and `saveReceiptToFile`: the rows of the item
table of an order, in line order. -/
def receiptRows (menu : List MenuItem) (o : Order) : List ReceiptRow :=
  o.items.filterMap (receiptRow menu)

/-- A line for `M03`, whose catalog name has 26 characters. -/
def biryaniLine : OrderItem := ⟨"M03", 1⟩

/-- A line for `D05`, whose catalog name has 5 characters. -/
def kulfiLine : OrderItem := ⟨"D05", 2⟩

/-- A takeaway order with the single line `M05 × 95871`, whose exact amount
33554850 is not a binary32 value. -/
def bigOrderSession : State :=
  run initState [.createOrder 0 0 0, .addItemToOrder 0 "M05" 95871]

/-! # Properties -/

/-! ## Bill calculator -/

theorem findMenuIndexByCode_spec (menu : List MenuItem) (code : String) :
    (findMenuIndexByCode menu code = -1 ∧ refLookup menu code = none) ∨
    (0 ≤ findMenuIndexByCode menu code ∧
      ∃ m, menu[(findMenuIndexByCode menu code).toNat]? = some m ∧
        refLookup menu code = some m ∧ m.code = code) := by
  induction menu with
  | nil => left; simp [findMenuIndexByCode, refLookup]
  | cons m ms ih =>
    by_cases h : m.code = code
    · right
      simp [findMenuIndexByCode, refLookup, h]
    · rcases ih with ⟨h1, h2⟩ | ⟨h1, m1, h2, h3, h4⟩
      · left
        unfold refLookup at h2 ⊢
        simp [findMenuIndexByCode, h, h1, h2]
      · right
        have hne : findMenuIndexByCode ms code ≠ -1 := by omega
        have htn : (findMenuIndexByCode ms code + 1).toNat
            = (findMenuIndexByCode ms code).toNat + 1 := by omega
        unfold refLookup at h3 ⊢
        simp only [findMenuIndexByCode, h, hne, if_false, htn]
        refine ⟨by omega, m1, ?_, ?_, h4⟩
        · simpa using h2
        · simp [List.find?, h, h3]

/-- The bill of an order found in the store. -/
theorem calculateBill_of_order (s : State) (orderIdx : Int) (o : Order)
    (hidx : 0 ≤ orderIdx) (ho : s.orders[orderIdx.toNat]? = some o) :
    calculateBill s orderIdx = billOf s.menuList o := by
  have hlt : orderIdx.toNat < s.orders.length := by
    rcases List.getElem?_eq_some.1 ho with ⟨h, _⟩
    exact h
  have hnot : ¬ (orderIdx < 0 ∨ orderIdx ≥ s.orderCount) := by
    unfold State.orderCount; omega
  simp only [calculateBill, hnot, if_false, ho]

set_option maxRecDepth 100000 in
theorem scenario3_order : scenario3.orders[(0 : Int).toNat]?
    = some ⟨9001, 1, 1, [⟨"M06", 4⟩, ⟨"B04", 1⟩], 0, 1⟩ := by decide

/-! ## Machine integers -/

theorem wrap32_of_isInt32 (x : Int) (h : isInt32 x) : wrap32 x = x := by
  unfold isInt32 at h
  unfold wrap32
  omega

theorem wrap32_add_wrap32 (a b : Int) : wrap32 (wrap32 a + b) = wrap32 (a + b) := by
  unfold wrap32
  omega

/-! ## Menu lookup -/

theorem findMenuIndexByCode_found (menu : List MenuItem) (code : String)
    (h : findMenuIndexByCode menu code ≠ -1) :
    ∃ m, menu[(findMenuIndexByCode menu code).toNat]? = some m ∧ m ∈ menu ∧ m.code = code := by
  rcases findMenuIndexByCode_spec menu code with ⟨h1, _⟩ | ⟨_, m, h2, _, h4⟩
  · exact absurd h1 h
  · exact ⟨m, h2, List.getElem?_mem h2, h4⟩

/-! ## Case analysis of the operations -/

theorem createOrder_cases (s : State) (d t now : Int) :
    createOrder s d t now = (-1, s) ∨
    (s.orders.length < 500 ∧
      (d ≠ 0 → 1 ≤ t ∧ t ≤ 50 ∧ s.tableOrderIndex[(t - 1).toNat]? = some (-1)) ∧
      createOrder s d t now =
        ((s.orders.length : Int),
         { s with
            orders := s.orders ++
              [{ orderId := s.nextOrderId, dineIn := if d ≠ 0 then 1 else 0,
                 tableNumber := if d ≠ 0 then t else 0, items := [], timestamp := now,
                 active := 1 }],
            nextOrderId := wrap32 (s.nextOrderId + 1),
            tableOrderIndex :=
              if d ≠ 0 then s.tableOrderIndex.set (t - 1).toNat (s.orders.length : Int)
              else s.tableOrderIndex })) := by
  unfold createOrder
  by_cases h1 : s.orderCount ≥ MAX_ORDERS
  · left; simp [h1]
  by_cases h2 : d ≠ 0 ∧ (t < 1 ∨ t > MAX_TABLES)
  · left; rw [if_neg h1, if_pos h2]
  by_cases h3 : d ≠ 0 ∧ s.tableOrderIndex[(t - 1).toNat]? ≠ some (-1)
  · left; rw [if_neg h1, if_neg h2, if_pos h3]
  right
  rw [if_neg h1, if_neg h2, if_neg h3]
  unfold State.orderCount MAX_ORDERS at h1
  unfold MAX_TABLES at h2
  refine ⟨by omega, ?_, rfl⟩
  intro hd
  have h2' : ¬ (t < 1 ∨ t > ((50 : Nat) : Int)) := fun h => h2 ⟨hd, h⟩
  have h3' : s.tableOrderIndex[(t - 1).toNat]? = some (-1) := by
    by_contra hc
    exact h3 ⟨hd, hc⟩
  refine ⟨by omega, by omega, h3'⟩

theorem addItemToOrder_cases (s : State) (i : Int) (c : String) (q : Int) :
    ((addItemToOrder s i c q).1 ≠ 0 ∧ (addItemToOrder s i c q).2 = s) ∨
    ∃ o items1, 0 ≤ i ∧ s.orders[i.toNat]? = some o ∧ o.active ≠ 0 ∧ 0 < q ∧
      (∃ m ∈ s.menuList, m.code = c) ∧
      addItemToOrder s i c q = (0, setOrder s i.toNat { o with items := items1 }) ∧
      (incrementQty o.items c q = some items1 ∨
        (incrementQty o.items c q = none ∧ o.items.length < 60 ∧
          items1 = o.items ++ [⟨strncpy c 5, q⟩])) := by
  unfold addItemToOrder
  by_cases hq : q ≤ 0
  · left; simp [hq]
  by_cases hi : i < 0 ∨ i ≥ s.orderCount
  · left; simp [hq, hi]
  simp only [hq, hi, if_false]
  cases ho : s.orders[i.toNat]? with
  | none => left; simp
  | some o =>
    by_cases ha : o.active = 0
    · left; simp [ha]
    by_cases hm : findMenuIndexByCode s.menuList c = -1
    · left; simp [ha, hm]
    obtain ⟨m, hm1, hm2, hm3⟩ := findMenuIndexByCode_found s.menuList c hm
    simp only [ha, hm, if_false, hm1]
    by_cases hav : m.available = 0
    · left; simp [hav]
    simp only [hav, if_false]
    cases hinc : incrementQty o.items c q with
    | some items1 =>
      right
      exact ⟨o, items1, by omega, rfl, ha, by omega, ⟨m, hm2, hm3⟩, rfl, Or.inl hinc⟩
    | none =>
      by_cases hfull : o.itemCount ≥ MAX_ITEMS_PER_ORDER
      · left; simp [hfull]
      right
      simp only [hfull, if_false]
      unfold Order.itemCount MAX_ITEMS_PER_ORDER at hfull
      exact ⟨o, _, by omega, rfl, ha, by omega, ⟨m, hm2, hm3⟩, rfl,
        Or.inr ⟨hinc, by omega, rfl⟩⟩

theorem removeItemFromOrder_cases (s : State) (i : Int) (c : String) :
    (removeItemFromOrder s i c = (-1, s)) ∨
    ∃ o items1, 0 ≤ i ∧ s.orders[i.toNat]? = some o ∧ o.active ≠ 0 ∧
      removeItemFromOrder s i c = (0, setOrder s i.toNat { o with items := items1 }) ∧
      shiftOut o.items c = some items1 := by
  unfold removeItemFromOrder
  by_cases hi : i < 0 ∨ i ≥ s.orderCount
  · left; simp [hi]
  simp only [hi, if_false]
  cases ho : s.orders[i.toNat]? with
  | none => left; simp
  | some o =>
    by_cases ha : o.active = 0
    · left; simp [ha]
    simp only [ha, if_false]
    cases hs : shiftOut o.items c with
    | none => left; simp
    | some items1 =>
      right
      exact ⟨o, items1, by omega, rfl, ha, rfl, hs⟩

/-! ## The line loops -/

theorem shiftOut_of_mem (items : List OrderItem) (c : String)
    (h : ∃ it ∈ items, it.code = c) : ∃ items1, shiftOut items c = some items1 := by
  induction items with
  | nil => simp at h
  | cons it rest ih =>
    by_cases hc : it.code = c
    · exact ⟨rest, by simp [shiftOut, hc]⟩
    · have h2 : ∃ it ∈ rest, it.code = c := by
        rcases h with ⟨x, hx, hxc⟩
        rcases List.mem_cons.1 hx with rfl | hx
        · exact absurd hxc hc
        · exact ⟨x, hx, hxc⟩
      rcases ih h2 with ⟨r, hr⟩
      exact ⟨it :: r, by simp [shiftOut, hc, hr]⟩

theorem assignQty_of_mem (items : List OrderItem) (c : String) (q : Int)
    (h : ∃ it ∈ items, it.code = c) : ∃ items1, assignQty items c q = some items1 := by
  induction items with
  | nil => simp at h
  | cons it rest ih =>
    by_cases hc : it.code = c
    · exact ⟨{ it with qty := q } :: rest, by rw [assignQty, if_pos hc]⟩
    · have h2 : ∃ it ∈ rest, it.code = c := by
        rcases h with ⟨x, hx, hxc⟩
        rcases List.mem_cons.1 hx with rfl | hx
        · exact absurd hxc hc
        · exact ⟨x, hx, hxc⟩
      rcases ih h2 with ⟨r, hr⟩
      exact ⟨it :: r, by simp [assignQty, hc, hr]⟩

theorem incrementQty_eq_none_iff (items : List OrderItem) (c : String) (q : Int) :
    incrementQty items c q = none ↔ ∀ it ∈ items, it.code ≠ c := by
  induction items with
  | nil => simp [incrementQty]
  | cons it rest ih =>
    by_cases hc : it.code = c
    · simp [incrementQty, hc]
    · simp [incrementQty, hc, ih]

theorem incrementQty_codes (items items1 : List OrderItem) (c : String) (q : Int)
    (h : incrementQty items c q = some items1) :
    items1.map OrderItem.code = items.map OrderItem.code := by
  induction items generalizing items1 with
  | nil => simp [incrementQty] at h
  | cons it rest ih =>
    by_cases hc : it.code = c
    · simp only [incrementQty, hc, if_true, Option.some.injEq] at h
      subst h
      simp [hc]
    · simp only [incrementQty, hc, if_false, Option.map_eq_some'] at h
      rcases h with ⟨r, hr, rfl⟩
      simp [ih r hr]

theorem assignQty_codes (items items1 : List OrderItem) (c : String) (q : Int)
    (h : assignQty items c q = some items1) :
    items1.map OrderItem.code = items.map OrderItem.code := by
  induction items generalizing items1 with
  | nil => simp [assignQty] at h
  | cons it rest ih =>
    by_cases hc : it.code = c
    · simp only [assignQty, hc, if_true, Option.some.injEq] at h
      subst h
      simp [hc]
    · simp only [assignQty, hc, if_false, Option.map_eq_some'] at h
      rcases h with ⟨r, hr, rfl⟩
      simp [ih r hr]

theorem shiftOut_sublist (items items1 : List OrderItem) (c : String)
    (h : shiftOut items c = some items1) : List.Sublist items1 items := by
  induction items generalizing items1 with
  | nil => simp [shiftOut] at h
  | cons it rest ih =>
    by_cases hc : it.code = c
    · simp [shiftOut, hc] at h
      subst h
      exact List.sublist_cons_self it rest
    · simp only [shiftOut, hc, if_false, Option.map_eq_some'] at h
      rcases h with ⟨r, hr, rfl⟩
      exact (ih r hr).cons₂ it

theorem updateItemQtyInOrder_cases (s : State) (i : Int) (c : String) (q : Int) :
    (updateItemQtyInOrder s i c q = (-1, s)) ∨
    ∃ o items1, 0 ≤ i ∧ s.orders[i.toNat]? = some o ∧ o.active ≠ 0 ∧
      updateItemQtyInOrder s i c q = (0, setOrder s i.toNat { o with items := items1 }) ∧
      ((q ≤ 0 ∧ shiftOut o.items c = some items1) ∨
        (0 < q ∧ assignQty o.items c q = some items1)) := by
  unfold updateItemQtyInOrder
  by_cases hi : i < 0 ∨ i ≥ s.orderCount
  · left; simp [hi]
  simp only [hi, if_false]
  cases ho : s.orders[i.toNat]? with
  | none => left; simp
  | some o =>
    by_cases ha : o.active = 0
    · left; simp [ha]
    by_cases hex : ∃ it ∈ o.items, it.code = c
    · right
      by_cases hq : q ≤ 0
      · obtain ⟨items1, h1⟩ := shiftOut_of_mem o.items c hex
        refine ⟨o, items1, by omega, rfl, ha, ?_, Or.inl ⟨hq, h1⟩⟩
        simp only [ha, if_false, hex, if_true, hq]
        simp only [removeItemFromOrder, hi, if_false, ho, ha, h1]
      · obtain ⟨items1, h1⟩ := assignQty_of_mem o.items c q hex
        refine ⟨o, items1, by omega, rfl, ha, ?_, Or.inr ⟨by omega, h1⟩⟩
        simp only [ha, if_false, hex, if_true, hq, h1]
    · left
      simp only [ha, if_false, hex]

theorem printBill_cases (s : State) (i : Int) :
    printBill s i = s ∨
    ∃ o, 0 ≤ i ∧ s.orders[i.toNat]? = some o ∧ o.active ≠ 0 ∧
      printBill s i =
        { s with
          orders := s.orders.set i.toNat { o with active := 0 },
          tableOrderIndex :=
            if o.dineIn ≠ 0 ∧ o.tableNumber ≥ 1 ∧ o.tableNumber ≤ 50 then
              s.tableOrderIndex.set (o.tableNumber - 1).toNat (-1)
            else s.tableOrderIndex } := by
  unfold printBill
  by_cases hi : i < 0 ∨ i ≥ s.orderCount
  · left; simp [hi]
  simp only [hi, if_false]
  cases ho : s.orders[i.toNat]? with
  | none => left; simp
  | some o =>
    by_cases ha : o.active = 0
    · left; simp [ha]
    right
    refine ⟨o, by omega, rfl, ha, ?_⟩
    simp only [ha, if_false, setOrder, MAX_TABLES]
    by_cases hd : o.dineIn ≠ 0 ∧ o.tableNumber ≥ 1 ∧ o.tableNumber ≤ ((50 : Nat) : Int)
    · rw [if_pos hd, if_pos (by simpa using hd)]
    · rw [if_neg hd, if_neg (by simpa using hd)]

theorem toggleAvailability_cases (s : State) (c : String) :
    toggleAvailability s c = s ∨
    ∃ n mi, s.menuList[n]? = some mi ∧
      toggleAvailability s c =
        { s with menuList :=
            s.menuList.set n ({ mi with available := if mi.available = 0 then 1 else 0 }) } := by
  unfold toggleAvailability
  by_cases hm : findMenuIndexByCode s.menuList c = -1
  · left; simp [hm]
  simp only [hm, if_false]
  cases hmi : s.menuList[(findMenuIndexByCode s.menuList c).toNat]? with
  | none => left; rfl
  | some mi => right; exact ⟨_, mi, hmi, rfl⟩
/-! ## Every operation has one of the five effects -/

theorem step_effect (s : State) (op : Op) : StepEffect s (step s op).2 := by
  cases op with
  | createOrder d t now =>
    rcases createOrder_cases s d t now with h | ⟨h1, h2, h3⟩
    · left; simp [step, h]
    · right; left
      exact ⟨d, t, now, h1, h2, by simp [step, h3, createdState]⟩
  | addItemToOrder i c q =>
    rcases addItemToOrder_cases s i c q with ⟨_, h⟩ | ⟨o, items1, _, ho, ha, hq, hm, h, hl⟩
    · left; simpa [step] using h
    · right; right; left
      refine ⟨i.toNat, o, items1, ho, ha, by simp [step, h], ?_⟩
      rcases hl with hl | ⟨hl1, hl2, hl3⟩
      · exact Or.inl ⟨c, q, hq, hl⟩
      · exact Or.inr (Or.inl ⟨c, q, hq, hm, hl1, hl2, hl3⟩)
  | removeItemFromOrder i c =>
    rcases removeItemFromOrder_cases s i c with h | ⟨o, items1, _, ho, ha, h, hl⟩
    · left; simp [step, h]
    · right; right; left
      exact ⟨i.toNat, o, items1, ho, ha, by simp [step, h], Or.inr (Or.inr (Or.inl ⟨c, hl⟩))⟩
  | updateItemQtyInOrder i c q =>
    rcases updateItemQtyInOrder_cases s i c q with h | ⟨o, items1, _, ho, ha, h, hl⟩
    · left; simp [step, h]
    · right; right; left
      refine ⟨i.toNat, o, items1, ho, ha, by simp [step, h], ?_⟩
      rcases hl with ⟨_, hl⟩ | ⟨hq, hl⟩
      · exact Or.inr (Or.inr (Or.inl ⟨c, hl⟩))
      · exact Or.inr (Or.inr (Or.inr ⟨c, q, hq, hl⟩))
  | toggleAvailability c =>
    rcases toggleAvailability_cases s c with h | ⟨n, mi, h1, h2⟩
    · left; simp [step, h]
    · right; right; right; left
      exact ⟨n, mi, h1, by simp [step, h2]⟩
  | printBill i =>
    rcases printBill_cases s i with h | ⟨o, _, ho, ha, h⟩
    · left; simp [step, h]
    · right; right; right; right
      exact ⟨i.toNat, o, ho, ha, by simp [step, h, billedState]⟩

theorem getElem?_set_cases {α : Type} (l : List α) (n i : Nat) (x y : α)
    (h : (l.set n x)[i]? = some y) :
    (i = n ∧ y = x ∧ n < l.length) ∨ (i ≠ n ∧ l[i]? = some y) := by
  by_cases hin : i = n
  · subst hin
    left
    rw [List.getElem?_set] at h
    simp only [if_true] at h
    by_cases hl : i < l.length
    · simp only [hl, if_true, Option.some.injEq] at h
      exact ⟨rfl, h.symm, hl⟩
    · simp [hl] at h
  · right
    rw [List.getElem?_set_ne (fun hh => hin hh.symm)] at h
    exact ⟨hin, h⟩

theorem getElem?_append_singleton_cases {α : Type} (l : List α) (i : Nat) (x y : α)
    (h : (l ++ [x])[i]? = some y) :
    (i = l.length ∧ y = x) ∨ (i < l.length ∧ l[i]? = some y) := by
  by_cases hl : i < l.length
  · right
    rw [List.getElem?_append_left hl] at h
    exact ⟨hl, h⟩
  · left
    have hi : i = l.length := by
      have := (List.getElem?_eq_some.1 h).1
      simp at this
      omega
    subst hi
    rw [List.getElem?_concat_length] at h
    exact ⟨rfl, (Option.some.inj h).symm⟩

/-! ## Table registry invariant -/

theorem tablesConsistent_effect (s s1 : State) (h : TablesConsistent s)
    (he : StepEffect s s1) : TablesConsistent s1 := by
  obtain ⟨hlen, hinv⟩ := h
  rcases he with rfl | ⟨d, t, now, _, hd, rfl⟩ | ⟨n, o, items1, ho, _, rfl, _⟩ |
    ⟨n, mi, _, rfl⟩ | ⟨n, o, ho, ha, rfl⟩
  · exact ⟨hlen, hinv⟩
  · -- createOrder
    refine ⟨?_, ?_⟩
    · simp only [createdState]
      split <;> simp [hlen]
    · intro i o1 hi hact hdin
      simp only [createdState] at hi ⊢
      rcases getElem?_append_singleton_cases _ _ _ _ hi with ⟨hil, rfl⟩ | ⟨_, hio⟩
      · have hd0 : d ≠ 0 := by
          intro h0
          simp [h0] at hdin
        obtain ⟨h1, h2, _⟩ := hd hd0
        simp only [hd0, ne_eq, not_false_eq_true, if_true]
        refine ⟨h1, h2, ?_⟩
        rw [hil]
        exact List.getElem?_set_self (by omega)
      · obtain ⟨h1, h2, h3⟩ := hinv i o1 hio hact hdin
        refine ⟨h1, h2, ?_⟩
        by_cases hd0 : d ≠ 0
        · obtain ⟨_, _, h6⟩ := hd hd0
          simp only [hd0, ne_eq, not_false_eq_true, if_true]
          have hne : (t - 1).toNat ≠ (o1.tableNumber - 1).toNat := by
            intro heq
            rw [heq, h3] at h6
            have := Option.some.inj h6
            omega
          rw [List.getElem?_set_ne hne]
          exact h3
        · simp only [hd0, if_false]
          exact h3
  · -- lines of one order changed
    refine ⟨hlen, ?_⟩
    intro i o1 hi hact hdin
    simp only [setOrder] at hi ⊢
    rcases getElem?_set_cases _ _ _ _ _ hi with ⟨rfl, rfl, _⟩ | ⟨_, hio⟩
    · exact hinv i o ho hact hdin
    · exact hinv i o1 hio hact hdin
  · exact ⟨hlen, hinv⟩
  · -- printBill
    refine ⟨?_, ?_⟩
    · simp only [billedState]
      split <;> simp [hlen]
    · intro i o1 hi hact hdin
      simp only [billedState] at hi ⊢
      rcases getElem?_set_cases _ _ _ _ _ hi with ⟨rfl, rfl, _⟩ | ⟨hin, hio⟩
      · exact absurd rfl hact
      · obtain ⟨h1, h2, h3⟩ := hinv i o1 hio hact hdin
        refine ⟨h1, h2, ?_⟩
        by_cases hc : o.dineIn ≠ 0 ∧ o.tableNumber ≥ 1 ∧ o.tableNumber ≤ 50
        · rw [if_pos hc]
          obtain ⟨_, _, h6⟩ := hinv n o ho ha hc.1
          have hne : (o.tableNumber - 1).toNat ≠ (o1.tableNumber - 1).toNat := by
            intro heq
            rw [heq, h3] at h6
            have := Option.some.inj h6
            omega
          rw [List.getElem?_set_ne hne]
          exact h3
        · rw [if_neg hc]
          exact h3

set_option maxRecDepth 100000 in
theorem tablesConsistent_init : TablesConsistent initState := by
  refine ⟨by decide, ?_⟩
  intro i o hi
  have : initState.orders = [] := by rfl
  rw [this] at hi
  simp at hi

theorem reachable_tablesConsistent (s : State) (h : Reachable s) : TablesConsistent s := by
  induction h with
  | init => exact tablesConsistent_init
  | step op _ _ ih => exact tablesConsistent_effect _ _ ih (step_effect _ op)

/-! ## Order id invariant -/

theorem idsSequential_effect (s s1 : State) (h : IdsSequential s)
    (he : StepEffect s s1) : IdsSequential s1 := by
  obtain ⟨hnext, hlen, hinv⟩ := h
  rcases he with rfl | ⟨d, t, now, hcap, _, rfl⟩ | ⟨n, o, items1, ho, _, rfl, _⟩ |
    ⟨n, mi, _, rfl⟩ | ⟨n, o, ho, _, rfl⟩
  · exact ⟨hnext, hlen, hinv⟩
  · refine ⟨?_, ?_, ?_⟩
    · simp only [createdState, List.length_append, List.length_singleton]
      rw [hnext, wrap32_of_isInt32 _ (by unfold isInt32; omega)]
      push_cast
      ring
    · simp only [createdState, List.length_append, List.length_singleton]
      omega
    · intro k o1 hk
      simp only [createdState] at hk
      rcases getElem?_append_singleton_cases _ _ _ _ hk with ⟨hkl, rfl⟩ | ⟨_, hko⟩
      · simp only [hnext, hkl]
      · exact hinv k o1 hko
  · refine ⟨by simpa [setOrder] using hnext, by simpa [setOrder] using hlen, ?_⟩
    intro k o1 hk
    simp only [setOrder] at hk
    rcases getElem?_set_cases _ _ _ _ _ hk with ⟨rfl, rfl, _⟩ | ⟨_, hko⟩
    · exact hinv k o ho
    · exact hinv k o1 hko
  · exact ⟨hnext, hlen, hinv⟩
  · refine ⟨by simpa [billedState] using hnext, by simpa [billedState] using hlen, ?_⟩
    intro k o1 hk
    simp only [billedState] at hk
    rcases getElem?_set_cases _ _ _ _ _ hk with ⟨rfl, rfl, _⟩ | ⟨_, hko⟩
    · exact hinv k o ho
    · exact hinv k o1 hko

set_option maxRecDepth 100000 in
theorem idsSequential_init : IdsSequential initState := by
  have h1 : initState.orders = [] := by rfl
  have h2 : initState.nextOrderId = 9001 := by rfl
  refine ⟨by rw [h1, h2]; rfl, by rw [h1]; simp, ?_⟩
  intro k o hk
  rw [h1] at hk
  simp at hk

theorem reachable_idsSequential (s : State) (h : Reachable s) : IdsSequential s := by
  induction h with
  | init => exact idsSequential_init
  | step op _ _ ih => exact idsSequential_effect _ _ ih (step_effect _ op)

/-! ## Line invariant -/

theorem strncpy_of_length_le (src : String) (n : Nat) (h : src.length ≤ n) :
    strncpy src n = src := by
  cases src with
  | mk data =>
    simp only [String.length] at h
    simp [strncpy, List.take_of_length_le h]

theorem menuCodesFit_effect (s s1 : State) (h : MenuCodesFit s) (he : StepEffect s s1) :
    MenuCodesFit s1 := by
  rcases he with rfl | ⟨d, t, now, _, _, rfl⟩ | ⟨n, o, items1, _, _, rfl, _⟩ |
    ⟨n, mi, hmi, rfl⟩ | ⟨n, o, _, _, rfl⟩
  · exact h
  · exact h
  · exact h
  · intro m hm
    rcases List.mem_or_eq_of_mem_set hm with hm | rfl
    · exact h m hm
    · exact h mi (List.getElem?_mem hmi)
  · exact h

theorem linesStep_nodup (menu : List MenuItem) (items items1 : List OrderItem)
    (hfit : ∀ m ∈ menu, m.code.length ≤ 5) (hl : LinesStep menu items items1)
    (h : (items.map OrderItem.code).Nodup) : (items1.map OrderItem.code).Nodup := by
  rcases hl with ⟨c, q, _, hinc⟩ | ⟨c, q, _, ⟨m, hm, rfl⟩, hnone, _, rfl⟩ | ⟨c, hs⟩ |
    ⟨c, q, _, has⟩
  · rw [incrementQty_codes _ _ _ _ hinc]
    exact h
  · rw [strncpy_of_length_le _ _ (hfit m hm)]
    rw [List.map_append, List.nodup_append]
    refine ⟨h, by simp, ?_⟩
    intro x hx hx2
    simp only [List.map_cons, List.map_nil, List.mem_singleton] at hx2
    subst hx2
    rcases List.mem_map.1 hx with ⟨it, hit, hcode⟩
    exact (incrementQty_eq_none_iff _ _ _).1 hnone it hit hcode
  · exact ((shiftOut_sublist _ _ _ hs).map OrderItem.code).nodup h
  · rw [assignQty_codes _ _ _ _ has]
    exact h

theorem linesDistinct_effect (s s1 : State) (hfit : MenuCodesFit s) (h : LinesDistinct s)
    (he : StepEffect s s1) : LinesDistinct s1 := by
  rcases he with rfl | ⟨d, t, now, _, _, rfl⟩ | ⟨n, o, items1, ho, _, rfl, hl⟩ |
    ⟨n, mi, _, rfl⟩ | ⟨n, o, ho, _, rfl⟩
  · exact h
  · intro o1 ho1
    simp only [createdState, List.mem_append, List.mem_singleton] at ho1
    rcases ho1 with ho1 | rfl
    · exact h o1 ho1
    · simp
  · intro o1 ho1
    rcases List.mem_or_eq_of_mem_set ho1 with ho1 | rfl
    · exact h o1 ho1
    · exact linesStep_nodup _ _ _ hfit hl (h o (List.getElem?_mem ho))
  · exact h
  · intro o1 ho1
    rcases List.mem_or_eq_of_mem_set ho1 with ho1 | rfl
    · exact h o1 ho1
    · exact h o (List.getElem?_mem ho)

set_option maxRecDepth 100000 in
theorem menuCodesFit_init : MenuCodesFit initState := by
  unfold MenuCodesFit
  decide

set_option maxRecDepth 100000 in
theorem linesDistinct_init : LinesDistinct initState := by
  intro o ho
  have h1 : initState.orders = [] := by rfl
  rw [h1] at ho
  simp at ho

theorem reachable_menuCodesFit (s : State) (h : Reachable s) : MenuCodesFit s := by
  induction h with
  | init => exact menuCodesFit_init
  | step op _ _ ih => exact menuCodesFit_effect _ _ ih (step_effect _ op)

theorem reachable_linesDistinct (s : State) (h : Reachable s) : LinesDistinct s := by
  induction h with
  | init => exact linesDistinct_init
  | step op hr _ ih =>
    exact linesDistinct_effect _ _ (reachable_menuCodesFit _ hr) ih (step_effect _ op)

/-! ## Reachability of example sessions -/

theorem reachable_run (s : State) (ops : List Op) (h : Reachable s)
    (hops : ∀ op ∈ ops, op.wellTyped) : Reachable (run s ops) := by
  induction ops generalizing s with
  | nil => exact h
  | cons op rest ih =>
    exact ih _ (Reachable.step op h (hops op (List.mem_cons_self _ _)))
      (fun op1 h1 => hops op1 (List.mem_cons_of_mem _ h1))

/-! ## Claims on the table registry, the lines and the order ids -/

/-- C3: in every reachable state, no two distinct active dine-in orders have the
same table number. -/
theorem active_dinein_orders_have_distinct_tables (s : State) (h : Reachable s)
    (i j : Nat) (oi oj : Order) (hi : s.orders[i]? = some oi) (hj : s.orders[j]? = some oj)
    (hij : i ≠ j) (hai : oi.active ≠ 0) (haj : oj.active ≠ 0)
    (hdi : oi.dineIn ≠ 0) (hdj : oj.dineIn ≠ 0) :
    oi.tableNumber ≠ oj.tableNumber := by
  obtain ⟨_, hinv⟩ := reachable_tablesConsistent s h
  obtain ⟨_, _, h1⟩ := hinv i oi hi hai hdi
  obtain ⟨_, _, h2⟩ := hinv j oj hj haj hdj
  intro heq
  rw [heq, h2] at h1
  have := Option.some.inj h1
  omega

set_option maxRecDepth 100000 in
/-- Witness for C3: two dine-in orders opened at tables 3 and 4. -/
theorem active_dinein_orders_have_distinct_tables_witness :
    Reachable twoTables ∧
    twoTables.orders[0]? = some ⟨9001, 1, 3, [], 0, 1⟩ ∧
    twoTables.orders[1]? = some ⟨9002, 1, 4, [], 0, 1⟩ ∧
    (3 : Int) ≠ 4 :=
  ⟨reachable_run _ _ Reachable.init (by decide), by decide, by decide,
    active_dinein_orders_have_distinct_tables twoTables
      (reachable_run _ _ Reachable.init (by decide)) 0 1 ⟨9001, 1, 3, [], 0, 1⟩
      ⟨9002, 1, 4, [], 0, 1⟩ (by decide) (by decide) (by decide) (by decide) (by decide)
      (by decide) (by decide)⟩

/-- C5: in every reachable state, no order has two lines with the same item code. -/
theorem order_lines_have_distinct_codes (s : State) (h : Reachable s) (o : Order)
    (ho : o ∈ s.orders) (a b : Nat) (la lb : OrderItem)
    (ha : o.items[a]? = some la) (hb : o.items[b]? = some lb) (hab : a ≠ b) :
    la.code ≠ lb.code := by
  have hnd := reachable_linesDistinct s h o ho
  rw [List.nodup_iff_getElem?_ne_getElem?] at hnd
  have hla : (o.items.map OrderItem.code)[a]? = some la.code := by simp [ha]
  have hlb : (o.items.map OrderItem.code)[b]? = some lb.code := by simp [hb]
  have hblt : b < (o.items.map OrderItem.code).length := (List.getElem?_eq_some.1 hlb).1
  have halt : a < (o.items.map OrderItem.code).length := (List.getElem?_eq_some.1 hla).1
  intro heq
  rcases Nat.lt_or_gt_of_ne hab with hlt | hgt
  · exact hnd a b hlt hblt (by rw [hla, hlb, heq])
  · exact hnd b a hgt halt (by rw [hla, hlb, heq])

set_option maxRecDepth 100000 in
/-- Witness for C5: after `S03 × 1`, `B01 × 2`, `S03 × 2` the order has the two lines
`S03 × 3` and `B01 × 2`. -/
theorem order_lines_have_distinct_codes_witness :
    Reachable mergedSession ∧
    (⟨9001, 0, 0, [⟨"S03", 3⟩, ⟨"B01", 2⟩], 0, 1⟩ : Order) ∈ mergedSession.orders ∧
    "S03" ≠ "B01" :=
  ⟨reachable_run _ _ Reachable.init (by decide), by decide,
    order_lines_have_distinct_codes mergedSession
      (reachable_run _ _ Reachable.init (by decide))
      ⟨9001, 0, 0, [⟨"S03", 3⟩, ⟨"B01", 2⟩], 0, 1⟩ (by decide) 0 1 ⟨"S03", 3⟩ ⟨"B01", 2⟩
      (by decide) (by decide) (by decide)⟩

/-- C8: in every reachable state the order stored at creation index k has orderId
9001 + k, so ids are strictly increasing in creation order and pairwise distinct;
a failed `createOrder` leaves `nextOrderId` and `orderCount` unchanged. -/
theorem order_ids_sequential_from_9001 (s : State) (h : Reachable s) :
    (∀ (k : Nat) (o : Order), s.orders[k]? = some o → o.orderId = 9001 + (k : Int)) ∧
    (∀ (j k : Nat) (oj ok : Order), s.orders[j]? = some oj → s.orders[k]? = some ok →
      j < k → oj.orderId < ok.orderId) ∧
    (∀ (j k : Nat) (oj ok : Order), s.orders[j]? = some oj → s.orders[k]? = some ok →
      j ≠ k → oj.orderId ≠ ok.orderId) ∧
    (∀ d t now : Int, (createOrder s d t now).1 = -1 →
      (createOrder s d t now).2.nextOrderId = s.nextOrderId ∧
      (createOrder s d t now).2.orderCount = s.orderCount) := by
  obtain ⟨_, _, hinv⟩ := reachable_idsSequential s h
  refine ⟨hinv, ?_, ?_, ?_⟩
  · intro j k oj ok hj hk hjk
    rw [hinv j oj hj, hinv k ok hk]
    omega
  · intro j k oj ok hj hk hjk
    rw [hinv j oj hj, hinv k ok hk]
    omega
  · intro d t now hfail
    rcases createOrder_cases s d t now with hc | ⟨_, _, hc⟩
    · rw [hc]
      exact ⟨rfl, rfl⟩
    · rw [hc] at hfail
      simp only at hfail
      omega

set_option maxRecDepth 100000 in
/-- Witness for C8: the two orders of `twoTables` carry 9001 and 9002, and a third
dine-in order at the occupied table 3 fails without consuming an id. -/
theorem order_ids_sequential_from_9001_witness :
    Reachable twoTables ∧
    twoTables.orders.map Order.orderId = [9001, 9002] ∧
    (createOrder twoTables 1 3 0).1 = -1 ∧
    (createOrder twoTables 1 3 0).2.nextOrderId = 9003 :=
  ⟨reachable_run _ _ Reachable.init (by decide), by decide, by decide,
    ((order_ids_sequential_from_9001 twoTables
      (reachable_run _ _ Reachable.init (by decide))).2.2.2 1 3 0 (by decide)).1.trans
      (by decide)⟩

/-! ## Closure and the table lifecycle -/

theorem createOrder_success (s : State) (d t now : Int) (hcap : s.orders.length < 500)
    (h : d ≠ 0 → 1 ≤ t ∧ t ≤ 50 ∧ s.tableOrderIndex[(t - 1).toNat]? = some (-1)) :
    createOrder s d t now = ((s.orders.length : Int), createdState s d t now) := by
  unfold createOrder
  have h1 : ¬ s.orderCount ≥ MAX_ORDERS := by
    unfold State.orderCount MAX_ORDERS; omega
  have h2 : ¬ (d ≠ 0 ∧ (t < 1 ∨ t > (MAX_TABLES : Int))) := by
    rintro ⟨hd, hr⟩
    obtain ⟨ha, hb, _⟩ := h hd
    unfold MAX_TABLES at hr
    omega
  have h3 : ¬ (d ≠ 0 ∧ s.tableOrderIndex[(t - 1).toNat]? ≠ some (-1)) := by
    rintro ⟨hd, hr⟩
    exact hr (h hd).2.2
  rw [if_neg h1, if_neg h2, if_neg h3]
  rfl

theorem printBill_active (s : State) (i : Int) (o : Order) (hi : 0 ≤ i)
    (ho : s.orders[i.toNat]? = some o) (ha : o.active ≠ 0) :
    printBill s i = billedState s i.toNat o := by
  rcases printBill_cases s i with h | ⟨o1, _, ho1, _, h⟩
  · exfalso
    have hlt : i.toNat < s.orders.length := (List.getElem?_eq_some.1 ho).1
    have hnot : ¬ (i < 0 ∨ i ≥ s.orderCount) := by
      unfold State.orderCount; omega
    unfold printBill at h
    simp only [hnot, if_false, ho, ha] at h
    have h2 : (setOrder s i.toNat { o with active := 0 }).orders[i.toNat]?
        = some { o with active := 0 } := by
      simp only [setOrder]
      exact List.getElem?_set_self hlt
    split at h
    · have h3 := congrArg (fun st => st.orders[i.toNat]?) h
      simp only [h2, ho, Option.some.injEq] at h3
      exact ha (by rw [← h3])
    · rw [h, ho] at h2
      exact ha (by rw [Option.some.inj h2])
  · rw [ho] at ho1
    cases Option.some.inj ho1
    rw [h]
    rfl

theorem effect_keeps_order_fields (s s1 : State) (he : StepEffect s s1) (i : Nat)
    (o : Order) (ho : s.orders[i]? = some o) :
    ∃ o1, s1.orders[i]? = some o1 ∧ o1.orderId = o.orderId ∧ o1.dineIn = o.dineIn ∧
      o1.tableNumber = o.tableNumber ∧ o1.timestamp = o.timestamp := by
  have hlt : i < s.orders.length := (List.getElem?_eq_some.1 ho).1
  rcases he with rfl | ⟨d, t, now, _, _, rfl⟩ | ⟨n, o2, items1, ho2, _, rfl, _⟩ |
    ⟨n, mi, _, rfl⟩ | ⟨n, o2, ho2, _, rfl⟩
  · exact ⟨o, ho, rfl, rfl, rfl, rfl⟩
  · refine ⟨o, ?_, rfl, rfl, rfl, rfl⟩
    simp only [createdState]
    rw [List.getElem?_append_left hlt]
    exact ho
  · by_cases hin : n = i
    · subst hin
      rw [ho] at ho2
      cases Option.some.inj ho2
      exact ⟨_, List.getElem?_set_self hlt, rfl, rfl, rfl, rfl⟩
    · refine ⟨o, ?_, rfl, rfl, rfl, rfl⟩
      simp only [setOrder]
      rw [List.getElem?_set_ne hin]
      exact ho
  · exact ⟨o, ho, rfl, rfl, rfl, rfl⟩
  · by_cases hin : n = i
    · subst hin
      rw [ho] at ho2
      cases Option.some.inj ho2
      exact ⟨_, List.getElem?_set_self hlt, rfl, rfl, rfl, rfl⟩
    · refine ⟨o, ?_, rfl, rfl, rfl, rfl⟩
      simp only [billedState]
      rw [List.getElem?_set_ne hin]
      exact ho

theorem run_keeps_order_fields (s : State) (ops : List Op) (i : Nat) (o : Order)
    (ho : s.orders[i]? = some o) :
    ∃ o1, (run s ops).orders[i]? = some o1 ∧ o1.orderId = o.orderId ∧
      o1.dineIn = o.dineIn ∧ o1.tableNumber = o.tableNumber ∧
      o1.timestamp = o.timestamp := by
  induction ops generalizing s o with
  | nil => exact ⟨o, ho, rfl, rfl, rfl, rfl⟩
  | cons op rest ih =>
    obtain ⟨o1, h1, h2, h3, h4, h5⟩ := effect_keeps_order_fields s _ (step_effect s op) i o ho
    obtain ⟨o2, g1, g2, g3, g4, g5⟩ := ih (step s op).2 o1 h1
    exact ⟨o2, g1, g2.trans h2, g3.trans h3, g4.trans h4, g5.trans h5⟩

theorem tablesConsistent_run (s : State) (ops : List Op) (h : TablesConsistent s) :
    TablesConsistent (run s ops) := by
  induction ops generalizing s with
  | nil => exact h
  | cons op rest ih => exact ih _ (tablesConsistent_effect _ _ h (step_effect s op))

theorem effect_keeps_closed (s s1 : State) (he : StepEffect s s1) (x : Nat) (o : Order)
    (ho : s.orders[x]? = some o) (hc : o.active = 0) : s1.orders[x]? = some o := by
  have hlt : x < s.orders.length := (List.getElem?_eq_some.1 ho).1
  rcases he with rfl | ⟨d, t, now, _, _, rfl⟩ | ⟨n, o2, items1, ho2, ha2, rfl, _⟩ |
    ⟨n, mi, _, rfl⟩ | ⟨n, o2, ho2, ha2, rfl⟩
  · exact ho
  · simp only [createdState]
    rw [List.getElem?_append_left hlt]
    exact ho
  · have hin : n ≠ x := by
      rintro rfl
      rw [ho] at ho2
      cases Option.some.inj ho2
      exact ha2 hc
    simp only [setOrder]
    rw [List.getElem?_set_ne hin]
    exact ho
  · exact ho
  · have hin : n ≠ x := by
      rintro rfl
      rw [ho] at ho2
      cases Option.some.inj ho2
      exact ha2 hc
    simp only [billedState]
    rw [List.getElem?_set_ne hin]
    exact ho

theorem run_keeps_closed (s : State) (ops : List Op) (x : Nat) (o : Order)
    (ho : s.orders[x]? = some o) (hc : o.active = 0) : (run s ops).orders[x]? = some o := by
  induction ops generalizing s with
  | nil => exact ho
  | cons op rest ih => exact ih _ (effect_keeps_closed s _ (step_effect s op) x o ho hc)

/-- C9: in a reachable state below the session cap, a successful dine-in
`createOrder` at table t (1..MAX_TABLES) marks t occupied by the new order; after any
further operations, while that order is still active a dine-in `createOrder` at t
fails; billing it with `printBill` frees t, and then a dine-in `createOrder` at t
succeeds provided the session cap is not reached. -/
theorem table_lifecycle (s : State) (h : Reachable s) (hcap : s.orderCount < MAX_ORDERS)
    (t d now : Int) (ht1 : 1 ≤ t) (ht2 : t ≤ MAX_TABLES) (hd : d ≠ 0)
    (hok : (createOrder s d t now).1 ≠ -1) :
    (createOrder s d t now).2.tableOrderIndex[(t - 1).toNat]?
        = some (createOrder s d t now).1 ∧
    ∀ (ops : List Op) (o : Order),
      (run (createOrder s d t now).2 ops).orders[(createOrder s d t now).1.toNat]? = some o →
      o.active ≠ 0 →
      (∀ d2 now2 : Int, d2 ≠ 0 →
        (createOrder (run (createOrder s d t now).2 ops) d2 t now2).1 = -1) ∧
      (printBill (run (createOrder s d t now).2 ops)
          (createOrder s d t now).1).tableOrderIndex[(t - 1).toNat]? = some (-1) ∧
      (∀ d3 now3 : Int, d3 ≠ 0 →
        (printBill (run (createOrder s d t now).2 ops)
          (createOrder s d t now).1).orderCount < MAX_ORDERS →
        (createOrder (printBill (run (createOrder s d t now).2 ops)
          (createOrder s d t now).1) d3 t now3).1 ≠ -1) := by
  have hT := reachable_tablesConsistent s h
  unfold MAX_TABLES at ht2
  have ht50 : (t - 1).toNat < 50 := by omega
  rcases createOrder_cases s d t now with hc | ⟨_, _, hc⟩
  · rw [hc] at hok
    exact absurd rfl hok
  have hT1 : TablesConsistent (createOrder s d t now).2 := by
    have := tablesConsistent_effect _ _ hT (step_effect s (Op.createOrder d t now))
    simpa [step] using this
  rw [hc] at hT1 ⊢
  simp only [Int.toNat_ofNat] at hT1 ⊢
  refine ⟨?_, ?_⟩
  · simp only [hd, ne_eq, not_false_eq_true, if_true]
    exact List.getElem?_set_self (by rw [hT.1]; exact ht50)
  intro ops o ho ha
  have hT2 := tablesConsistent_run _ ops hT1
  have hnew : ({ s with
      orders := s.orders ++
        [{ orderId := s.nextOrderId, dineIn := if d ≠ 0 then 1 else 0,
           tableNumber := if d ≠ 0 then t else 0, items := [], timestamp := now,
           active := 1 }],
      nextOrderId := wrap32 (s.nextOrderId + 1),
      tableOrderIndex :=
        if d ≠ 0 then s.tableOrderIndex.set (t - 1).toNat (s.orders.length : Int)
        else s.tableOrderIndex } : State).orders[s.orders.length]?
      = some { orderId := s.nextOrderId, dineIn := if d ≠ 0 then 1 else 0,
               tableNumber := if d ≠ 0 then t else 0, items := [], timestamp := now,
               active := 1 } := List.getElem?_concat_length _ _
  obtain ⟨o1, ho1, _, hdin, htab, _⟩ := run_keeps_order_fields _ ops _ _ hnew
  rw [ho] at ho1
  cases Option.some.inj ho1
  simp only [hd, ne_eq, not_false_eq_true, if_true] at hdin htab
  have hdo : o.dineIn ≠ 0 := by rw [hdin]; decide
  obtain ⟨_, _, hocc⟩ := hT2.2 _ o ho ha hdo
  rw [htab] at hocc
  refine ⟨?_, ?_, ?_⟩
  · intro d2 now2 hd2
    rcases createOrder_cases _ d2 t now2 with h2 | ⟨_, hfree, _⟩
    · rw [h2]
    · exfalso
      have := (hfree hd2).2.2
      rw [hocc] at this
      have := Option.some.inj this
      omega
  · rw [printBill_active _ _ o (by omega) (by simpa using ho) ha]
    simp only [billedState, Int.toNat_ofNat]
    rw [if_pos ⟨hdo, by rw [htab]; omega, by rw [htab]; omega⟩, htab]
    exact List.getElem?_set_self (by rw [hT2.1]; exact ht50)
  · intro d3 now3 _ hcap3
    rw [printBill_active _ _ o (by omega) (by simpa using ho) ha] at hcap3 ⊢
    unfold State.orderCount MAX_ORDERS at hcap3
    rw [createOrder_success _ d3 t now3 (by omega)]
    · simp only
      omega
    · intro _
      refine ⟨ht1, ht2, ?_⟩
      simp only [billedState, Int.toNat_ofNat]
      rw [if_pos ⟨hdo, by rw [htab]; omega, by rw [htab]; omega⟩, htab]
      exact List.getElem?_set_self (by rw [hT2.1]; exact ht50)

set_option maxRecDepth 100000 in
/-- Witness for C9: scenario 5 of the specification at table 7. -/
theorem table_lifecycle_witness :
    (Reachable initState ∧ initState.orderCount < MAX_ORDERS ∧ (1 : Int) ≤ 7 ∧
      (7 : Int) ≤ MAX_TABLES ∧ (1 : Int) ≠ 0 ∧ (createOrder initState 1 7 0).1 ≠ -1) ∧
    tableSeven.tableOrderIndex[6]? = some 0 ∧
    (createOrder tableSeven 1 7 0).1 = -1 ∧
    (printBill tableSeven 0).tableOrderIndex[6]? = some (-1) ∧
    (createOrder (printBill tableSeven 0) 1 7 0).1 ≠ -1 := by
  have hw := table_lifecycle initState Reachable.init (by decide) 7 1 0 (by decide)
    (by decide) (by decide) (by decide)
  have h2 := hw.2 [] ⟨9001, 1, 7, [], 0, 1⟩ (by decide) (by decide)
  exact ⟨⟨Reachable.init, by decide, by decide, by decide, by decide, by decide⟩,
    by decide, h2.1 1 0 (by decide), h2.2.1, h2.2.2 1 0 (by decide) (by decide)⟩

/-- C6: a closed order is never changed again. On a closed order X the three
mutators return failure and leave the state as it is, `printBill` changes nothing
(no second closure, table registry untouched), and after any sequence of operations
(on X or on other orders, `createOrder` included) X is stored exactly as before. -/
theorem closed_order_is_never_changed (s : State) (x : Nat) (o : Order)
    (hx : s.orders[x]? = some o) (hc : o.active = 0) :
    (∀ (c : String) (q : Int), addItemToOrder s x c q = (-1, s)) ∧
    (∀ c : String, removeItemFromOrder s x c = (-1, s)) ∧
    (∀ (c : String) (q : Int), updateItemQtyInOrder s x c q = (-1, s)) ∧
    printBill s x = s ∧
    (∀ op : Op, (step s op).2.orders[x]? = some o) ∧
    (∀ ops : List Op, (run s ops).orders[x]? = some o) := by
  have hlt : x < s.orders.length := (List.getElem?_eq_some.1 hx).1
  have hnot : ¬ (((x : Nat) : Int) < 0 ∨ ((x : Nat) : Int) ≥ s.orderCount) := by
    unfold State.orderCount; omega
  have hx2 : s.orders[((x : Nat) : Int).toNat]? = some o := by simpa using hx
  refine ⟨?_, ?_, ?_, ?_, ?_, ?_⟩
  · intro c q
    unfold addItemToOrder
    by_cases hq : q ≤ 0
    · rw [if_pos hq]
    · rw [if_neg hq, if_neg hnot]
      simp only [hx2, hc, if_true]
  · intro c
    unfold removeItemFromOrder
    rw [if_neg hnot]
    simp only [hx2, hc, if_true]
  · intro c q
    unfold updateItemQtyInOrder
    rw [if_neg hnot]
    simp only [hx2, hc, if_true]
  · unfold printBill
    rw [if_neg hnot]
    simp only [hx2, hc, if_true]
  · intro op
    exact effect_keeps_closed s _ (step_effect s op) x o hx hc
  · intro ops
    exact run_keeps_closed s ops x o hx hc

set_option maxRecDepth 100000 in
/-- Witness for C6: the billed first order of `billedSession`. -/
theorem closed_order_is_never_changed_witness :
    (billedSession.orders[0]? = some ⟨9001, 1, 2, [⟨"M01", 2⟩], 0, 0⟩ ∧
      (⟨9001, 1, 2, [⟨"M01", 2⟩], 0, 0⟩ : Order).active = 0) ∧
    addItemToOrder billedSession 0 "M01" 1 = (-1, billedSession) ∧
    printBill billedSession 0 = billedSession ∧
    (run billedSession [.addItemToOrder 0 "M01" 1, .removeItemFromOrder 0 "M01",
        .updateItemQtyInOrder 0 "M01" 5, .printBill 0, .createOrder 1 2 9,
        .addItemToOrder 1 "B01" 1]).orders[0]?
      = some ⟨9001, 1, 2, [⟨"M01", 2⟩], 0, 0⟩ := by
  have hw := closed_order_is_never_changed billedSession 0 ⟨9001, 1, 2, [⟨"M01", 2⟩], 0, 0⟩
    (by decide) (by decide)
  exact ⟨⟨by decide, rfl⟩, hw.1 "M01" 1, hw.2.2.2.1, hw.2.2.2.2.2 _⟩

/-- C7: mutations are atomic. Whenever `createOrder`, `addItemToOrder`,
`removeItemFromOrder` or `updateItemQtyInOrder` returns a failure code (-1 or -2),
the whole state is identical to the state before the call. -/
theorem failed_mutation_leaves_state_unchanged (s : State) :
    (∀ d t now : Int,
      (createOrder s d t now).1 = -1 ∨ (createOrder s d t now).1 = -2 →
      (createOrder s d t now).2 = s) ∧
    (∀ (i : Int) (c : String) (q : Int),
      (addItemToOrder s i c q).1 = -1 ∨ (addItemToOrder s i c q).1 = -2 →
      (addItemToOrder s i c q).2 = s) ∧
    (∀ (i : Int) (c : String),
      (removeItemFromOrder s i c).1 = -1 ∨ (removeItemFromOrder s i c).1 = -2 →
      (removeItemFromOrder s i c).2 = s) ∧
    (∀ (i : Int) (c : String) (q : Int),
      (updateItemQtyInOrder s i c q).1 = -1 ∨ (updateItemQtyInOrder s i c q).1 = -2 →
      (updateItemQtyInOrder s i c q).2 = s) := by
  refine ⟨?_, ?_, ?_, ?_⟩
  · intro d t now hf
    rcases createOrder_cases s d t now with h | ⟨_, _, h⟩
    · rw [h]
    · rw [h] at hf
      simp only at hf
      omega
  · intro i c q hf
    rcases addItemToOrder_cases s i c q with ⟨_, h⟩ | ⟨o, items1, _, _, _, _, _, h, _⟩
    · exact h
    · rw [h] at hf
      simp only at hf
      omega
  · intro i c hf
    rcases removeItemFromOrder_cases s i c with h | ⟨o, items1, _, _, _, h, _⟩
    · rw [h]
    · rw [h] at hf
      simp only at hf
      omega
  · intro i c q hf
    rcases updateItemQtyInOrder_cases s i c q with h | ⟨o, items1, _, _, _, h, _⟩
    · rw [h]
    · rw [h] at hf
      simp only at hf
      omega

set_option maxRecDepth 100000 in
/-- Witness for C7: in `twoTables`, a dine-in order at the occupied table 3, an add
of an unknown code, a removal and an update of an absent line all fail and leave
the state as it was. -/
theorem failed_mutation_leaves_state_unchanged_witness :
    ((createOrder twoTables 1 3 0).1 = -1 ∧ (createOrder twoTables 1 3 0).2 = twoTables) ∧
    ((addItemToOrder twoTables 0 "Z99" 1).1 = -1 ∧
      (addItemToOrder twoTables 0 "Z99" 1).2 = twoTables) ∧
    ((removeItemFromOrder twoTables 0 "S01").1 = -1 ∧
      (removeItemFromOrder twoTables 0 "S01").2 = twoTables) ∧
    ((updateItemQtyInOrder twoTables 1 "S01" 3).1 = -1 ∧
      (updateItemQtyInOrder twoTables 1 "S01" 3).2 = twoTables) := by
  have hw := failed_mutation_leaves_state_unchanged twoTables
  have h1 : (createOrder twoTables 1 3 0).1 = -1 := by decide
  have h2 : (addItemToOrder twoTables 0 "Z99" 1).1 = -1 := by decide
  have h3 : (removeItemFromOrder twoTables 0 "S01").1 = -1 := by decide
  have h4 : (updateItemQtyInOrder twoTables 1 "S01" 3).1 = -1 := by decide
  exact ⟨⟨h1, hw.1 1 3 0 (Or.inl h1)⟩, ⟨h2, hw.2.1 0 "Z99" 1 (Or.inl h2)⟩,
    ⟨h3, hw.2.2.1 0 "S01" (Or.inl h3)⟩, ⟨h4, hw.2.2.2 1 "S01" 3 (Or.inl h4)⟩⟩

/-! ## Merge by code -/

theorem incrementQty_twice (items items1 : List OrderItem) (c : String) (q1 q2 : Int)
    (h : incrementQty items c q1 = some items1) :
    incrementQty items1 c q2 = incrementQty items c (q1 + q2) := by
  induction items generalizing items1 with
  | nil => simp [incrementQty] at h
  | cons it rest ih =>
    by_cases hc : it.code = c
    · simp only [incrementQty, hc, if_true, Option.some.injEq] at h
      subst h
      simp only [incrementQty, hc, if_true]
      rw [wrap32_add_wrap32, add_assoc]
    · simp only [incrementQty, hc, if_false, Option.map_eq_some'] at h
      rcases h with ⟨r, hr, rfl⟩
      simp only [incrementQty, hc, if_false, ih r hr]

theorem incrementQty_append_new (items : List OrderItem) (c : String) (q1 q2 : Int)
    (h : incrementQty items c q1 = none) :
    incrementQty (items ++ [⟨c, q1⟩]) c q2 = some (items ++ [⟨c, wrap32 (q1 + q2)⟩]) := by
  induction items with
  | nil => simp [incrementQty]
  | cons it rest ih =>
    by_cases hc : it.code = c
    · simp [incrementQty, hc] at h
    · simp only [incrementQty, hc, if_false, Option.map_eq_none'] at h
      have ih2 := ih h
      simp only [List.cons_append, incrementQty, hc, if_false, List.append_eq, ih2,
        Option.map_some']

theorem incrementQty_none_indep (items : List OrderItem) (c : String) (q1 q2 : Int)
    (h : incrementQty items c q1 = none) : incrementQty items c q2 = none := by
  rw [incrementQty_eq_none_iff] at h ⊢
  exact h

/-- The result of `addItemToOrder` once its guards have passed. -/
theorem addItemToOrder_eval (s : State) (i : Int) (c : String) (q : Int) (o : Order)
    (m : MenuItem) (hq : 0 < q) (hi : 0 ≤ i) (ho : s.orders[i.toNat]? = some o)
    (ha : o.active ≠ 0) (hm : findMenuIndexByCode s.menuList c ≠ -1)
    (hmi : s.menuList[(findMenuIndexByCode s.menuList c).toNat]? = some m)
    (hav : m.available ≠ 0) :
    addItemToOrder s i c q =
      match incrementQty o.items c q with
      | some items1 => (0, setOrder s i.toNat { o with items := items1 })
      | none =>
        if o.items.length ≥ 60 then (-2, s)
        else (0, setOrder s i.toNat { o with items := o.items ++ [⟨strncpy c 5, q⟩] }) := by
  have hlt : i.toNat < s.orders.length := (List.getElem?_eq_some.1 ho).1
  have hnot : ¬ (i < 0 ∨ i ≥ s.orderCount) := by
    unfold State.orderCount; omega
  unfold addItemToOrder
  rw [if_neg (by omega), if_neg hnot]
  simp only [ho, ha, if_false, hm, hmi, hav]
  rfl

/-- When a guard of `addItemToOrder` fails, the call fails whatever the quantity. -/
theorem addItemToOrder_guard_fail (s : State) (i : Int) (c : String)
    (h : ¬ ∃ o m, 0 ≤ i ∧ s.orders[i.toNat]? = some o ∧ o.active ≠ 0 ∧
      findMenuIndexByCode s.menuList c ≠ -1 ∧
      s.menuList[(findMenuIndexByCode s.menuList c).toNat]? = some m ∧ m.available ≠ 0)
    (q : Int) : addItemToOrder s i c q = (-1, s) := by
  unfold addItemToOrder
  by_cases hq : q ≤ 0
  · rw [if_pos hq]
  by_cases hi : i < 0 ∨ i ≥ s.orderCount
  · rw [if_neg hq, if_pos hi]
  rw [if_neg hq, if_neg hi]
  cases ho : s.orders[i.toNat]? with
  | none => rfl
  | some o =>
    by_cases ha : o.active = 0
    · simp only [ha, if_true]
    by_cases hm : findMenuIndexByCode s.menuList c = -1
    · simp only [ha, if_false, hm, if_true]
    simp only [ha, if_false, hm]
    cases hmi : s.menuList[(findMenuIndexByCode s.menuList c).toNat]? with
    | none => rfl
    | some m =>
      by_cases hav : m.available = 0
      · simp only [hav, if_true]
      · exact absurd ⟨o, m, by omega, ho, ha, hm, hmi, hav⟩ h

theorem setOrder_setOrder (s : State) (n : Nat) (a b : Order) :
    setOrder (setOrder s n a) n b = setOrder s n b := by
  simp [setOrder, List.set_set]

/-- Merge by code, as one equation: with positive quantities whose sum is an `int`,
adding `q1` and then `q2` of a code is the single add of `q1 + q2`. -/
theorem addItemToOrder_twice (s : State) (hfit : MenuCodesFit s) (i : Int) (c : String)
    (q1 q2 : Int) (h1 : 0 < q1) (h2 : 0 < q2) (hsum : q1 + q2 ≤ 2147483647) :
    addItemToOrder (addItemToOrder s i c q1).2 i c q2 = addItemToOrder s i c (q1 + q2) := by
  by_cases hg : ∃ o m, 0 ≤ i ∧ s.orders[i.toNat]? = some o ∧ o.active ≠ 0 ∧
      findMenuIndexByCode s.menuList c ≠ -1 ∧
      s.menuList[(findMenuIndexByCode s.menuList c).toNat]? = some m ∧ m.available ≠ 0
  · obtain ⟨o, m, hi, ho, ha, hm, hmi, hav⟩ := hg
    have hlt : i.toNat < s.orders.length := (List.getElem?_eq_some.1 ho).1
    have hcode : strncpy c 5 = c := by
      obtain ⟨m1, _, hmem, hmc⟩ := findMenuIndexByCode_found s.menuList c hm
      rw [← hmc]
      exact strncpy_of_length_le _ _ (hfit m1 hmem)
    have e1 := addItemToOrder_eval s i c q1 o m h1 hi ho ha hm hmi hav
    have e12 := addItemToOrder_eval s i c (q1 + q2) o m (by omega) hi ho ha hm hmi hav
    cases hinc : incrementQty o.items c q1 with
    | some items1 =>
      rw [hinc] at e1
      simp only at e1
      have ho1 : (setOrder s i.toNat { o with items := items1 }).orders[i.toNat]?
          = some { o with items := items1 } := List.getElem?_set_self hlt
      have e2 := addItemToOrder_eval (setOrder s i.toNat { o with items := items1 }) i c q2
        { o with items := items1 } m h2 hi ho1 ha hm hmi hav
      rw [e1]
      simp only
      rw [e2, e12]
      simp only [incrementQty_twice _ _ _ _ q2 hinc]
      cases h12 : incrementQty o.items c (q1 + q2) with
      | some items12 => simp only [setOrder_setOrder]
      | none =>
        have := incrementQty_none_indep _ _ _ q1 h12
        rw [hinc] at this
        cases this
    | none =>
      rw [hinc] at e1
      have hn2 := incrementQty_none_indep _ _ _ q2 hinc
      have hn12 := incrementQty_none_indep _ _ _ (q1 + q2) hinc
      rw [hn12] at e12
      by_cases hfull : o.items.length ≥ 60
      · simp only [hfull, if_true] at e1 e12
        have e2 := addItemToOrder_eval s i c q2 o m h2 hi ho ha hm hmi hav
        rw [hn2] at e2
        simp only [hfull, if_true] at e2
        rw [e1]
        simp only
        rw [e2, e12]
      · simp only [hfull, if_false, hcode] at e1 e12
        have ho1 : (setOrder s i.toNat
            { o with items := o.items ++ [⟨c, q1⟩] }).orders[i.toNat]?
            = some { o with items := o.items ++ [⟨c, q1⟩] } := List.getElem?_set_self hlt
        have e2 := addItemToOrder_eval
          (setOrder s i.toNat { o with items := o.items ++ [⟨c, q1⟩] }) i c q2
          { o with items := o.items ++ [⟨c, q1⟩] } m h2 hi ho1 ha hm hmi hav
        rw [e1]
        simp only
        rw [e2, e12]
        simp only [incrementQty_append_new _ _ _ q2 hinc, setOrder_setOrder,
          wrap32_of_isInt32 (q1 + q2) (by unfold isInt32; omega)]
  · rw [addItemToOrder_guard_fail s i c hg q1]
    simp only
    rw [addItemToOrder_guard_fail s i c hg q2, addItemToOrder_guard_fail s i c hg (q1 + q2)]

/-- C4, as amended: for every state, order index, code c and quantities q1 > 0 and
q2 > 0 whose sum is an `int` (q1 + q2 ≤ 2147483647), `addItemToOrder(c, q1)` followed
by `addItemToOrder(c, q2)` leaves the same state as the single call with q1 + q2,
and the second call returns the same result code as the single call. -/
theorem add_twice_eq_add_sum (s : State) (hfit : MenuCodesFit s) (i : Int) (c : String)
    (q1 q2 : Int) (h1 : 0 < q1) (h2 : 0 < q2) (hsum : q1 + q2 ≤ 2147483647) :
    (addItemToOrder (addItemToOrder s i c q1).2 i c q2).2
        = (addItemToOrder s i c (q1 + q2)).2 ∧
    (addItemToOrder (addItemToOrder s i c q1).2 i c q2).1
        = (addItemToOrder s i c (q1 + q2)).1 := by
  rw [addItemToOrder_twice s hfit i c q1 q2 h1 h2 hsum]
  exact ⟨rfl, rfl⟩

set_option maxRecDepth 100000 in
/-- Witness for C4: scenario 4 of the specification, `S03 × 1` then `S03 × 2` gives
the single line `S03 × 3`. -/
theorem add_twice_eq_add_sum_witness :
    (MenuCodesFit emptyOrderSession ∧ (0 : Int) < 1 ∧ (0 : Int) < 2 ∧
      (1 : Int) + 2 ≤ 2147483647) ∧
    (addItemToOrder (addItemToOrder emptyOrderSession 0 "S03" 1).2 0 "S03" 2).2
        = (addItemToOrder emptyOrderSession 0 "S03" (1 + 2)).2 ∧
    (addItemToOrder (addItemToOrder emptyOrderSession 0 "S03" 1).2 0 "S03" 2).1
        = (addItemToOrder emptyOrderSession 0 "S03" (1 + 2)).1 ∧
    (addItemToOrder emptyOrderSession 0 "S03" (1 + 2)).2.orders
        = [⟨9001, 0, 0, [⟨"S03", 3⟩], 0, 1⟩] := by
  have hfit : MenuCodesFit emptyOrderSession :=
    reachable_menuCodesFit _ (reachable_run _ _ Reachable.init (by decide))
  have hw := add_twice_eq_add_sum emptyOrderSession hfit 0 "S03" 1 2 (by decide)
    (by decide) (by decide)
  exact ⟨⟨hfit, by decide, by decide, by decide⟩, hw.1, hw.2, by decide⟩

set_option maxRecDepth 100000 in
/-- Counterexample to C4 as stated: with q1 = q2 = 1073741824 (both positive `int`s)
the sum q1 + q2 is not an `int`; taken modulo 2^32 it is -2147483648, so the single
call fails with -1 and leaves the order empty, while the two calls both return 0
and leave a line. -/
theorem add_twice_ne_add_sum_when_sum_overflows :
    (0 : Int) < 1073741824 ∧ isInt32 1073741824 ∧
    wrap32 (1073741824 + 1073741824) = -2147483648 ∧
    (addItemToOrder (addItemToOrder emptyOrderSession 0 "S01" 1073741824).2 0 "S01"
        1073741824).1 = 0 ∧
    (addItemToOrder emptyOrderSession 0 "S01" (wrap32 (1073741824 + 1073741824))).1 = -1 ∧
    (addItemToOrder (addItemToOrder emptyOrderSession 0 "S01" 1073741824).2 0 "S01"
        1073741824).2.orders = [⟨9001, 0, 0, [⟨"S01", -2147483648⟩], 0, 1⟩] ∧
    (addItemToOrder emptyOrderSession 0 "S01" (wrap32 (1073741824 + 1073741824))).2.orders
      = [⟨9001, 0, 0, [], 0, 1⟩] ∧
    ¬ ((addItemToOrder (addItemToOrder emptyOrderSession 0 "S01" 1073741824).2 0 "S01"
          1073741824).2
        = (addItemToOrder emptyOrderSession 0 "S01"
            (wrap32 (1073741824 + 1073741824))).2 ∧
      (addItemToOrder (addItemToOrder emptyOrderSession 0 "S01" 1073741824).2 0 "S01"
          1073741824).1
        = (addItemToOrder emptyOrderSession 0 "S01"
            (wrap32 (1073741824 + 1073741824))).1) := by
  refine ⟨by decide, by decide, by decide, by decide, by decide, by decide, by decide, ?_⟩
  intro h
  have h1 := h.2
  revert h1
  decide

set_option maxRecDepth 100000 in
/-- C10, evaluated at the failing input: after `createOrder(0, 0)`,
`addItemToOrder(0, "S01", 2147483647)` and `addItemToOrder(0, "S01", 1)`, all with
`int` arguments and all successful, the line `S01` has quantity -2147483648, so not
every line of every order of a reachable state has a strictly positive quantity. -/
theorem merged_quantity_overflow_is_not_positive :
    Reachable overflowSession ∧
    overflowSession.orders = [⟨9001, 0, 0, [⟨"S01", -2147483648⟩], 0, 1⟩] ∧
    ¬ (∀ o ∈ overflowSession.orders, ∀ it ∈ o.items, 0 < it.qty) :=
  ⟨reachable_run _ _ Reachable.init (by decide), by decide, by decide⟩

/-! ## Removal of a line -/

theorem shiftOut_split (items items1 : List OrderItem) (c : String)
    (h : shiftOut items c = some items1) :
    ∃ pre l post, items = pre ++ l :: post ∧ l.code = c ∧ (∀ x ∈ pre, x.code ≠ c) ∧
      items1 = pre ++ post := by
  induction items generalizing items1 with
  | nil => simp [shiftOut] at h
  | cons it rest ih =>
    by_cases hc : it.code = c
    · simp only [shiftOut, hc, if_true, Option.some.injEq] at h
      subst h
      exact ⟨[], it, rest, rfl, hc, by simp, rfl⟩
    · simp only [shiftOut, hc, if_false, Option.map_eq_some'] at h
      rcases h with ⟨r, hr, rfl⟩
      obtain ⟨pre, l, post, h1, h2, h3, h4⟩ := ih r hr
      refine ⟨it :: pre, l, post, by rw [h1]; rfl, h2, ?_, by rw [h4]; rfl⟩
      intro x hx
      rcases List.mem_cons.1 hx with rfl | hx
      · exact hc
      · exact h3 x hx

/-- The result of `removeItemFromOrder` on an active order. -/
theorem removeItemFromOrder_eval (s : State) (i : Int) (c : String) (o : Order)
    (hi : 0 ≤ i) (ho : s.orders[i.toNat]? = some o) (ha : o.active ≠ 0) :
    removeItemFromOrder s i c =
      match shiftOut o.items c with
      | some items1 => (0, setOrder s i.toNat { o with items := items1 })
      | none => (-1, s) := by
  have hlt : i.toNat < s.orders.length := (List.getElem?_eq_some.1 ho).1
  have hnot : ¬ (i < 0 ∨ i ≥ s.orderCount) := by
    unfold State.orderCount; omega
  unfold removeItemFromOrder
  rw [if_neg hnot]
  simp only [ho, ha, if_false]

/-- C12: on an active order, `removeItemFromOrder` succeeds if and only if the
order has a line with code c; on success the line sequence is the previous one with
exactly the first line carrying c deleted, the other lines keeping their code,
quantity and relative order, and itemCount decreases by one. -/
theorem removeItemFromOrder_deletes_the_line (s : State) (i : Int) (c : String) (o : Order)
    (hi : 0 ≤ i) (ho : s.orders[i.toNat]? = some o) (ha : o.active ≠ 0) :
    ((removeItemFromOrder s i c).1 = 0 ↔ ∃ it ∈ o.items, it.code = c) ∧
    ((removeItemFromOrder s i c).1 = 0 →
      ∃ pre l post, o.items = pre ++ l :: post ∧ l.code = c ∧ (∀ x ∈ pre, x.code ≠ c) ∧
        (removeItemFromOrder s i c).2 = setOrder s i.toNat { o with items := pre ++ post } ∧
        (removeItemFromOrder s i c).2.orders[i.toNat]?
          = some { o with items := pre ++ post } ∧
        Order.itemCount { o with items := pre ++ post } + 1 = o.itemCount) := by
  have hlt : i.toNat < s.orders.length := (List.getElem?_eq_some.1 ho).1
  have he := removeItemFromOrder_eval s i c o hi ho ha
  cases hs : shiftOut o.items c with
  | none =>
    rw [hs] at he
    simp only at he
    rw [he]
    have hne : ¬ ((-1 : Int) = 0) := by decide
    refine ⟨⟨fun h => absurd h hne, ?_⟩, fun h => absurd h hne⟩
    intro hex
    obtain ⟨r, hr⟩ := shiftOut_of_mem o.items c hex
    rw [hs] at hr
    cases hr
  | some items1 =>
    rw [hs] at he
    simp only at he
    rw [he]
    obtain ⟨pre, l, post, h1, h2, h3, h4⟩ := shiftOut_split _ _ _ hs
    refine ⟨⟨fun _ => ⟨l, by rw [h1]; simp, h2⟩, fun _ => rfl⟩, fun _ => ?_⟩
    refine ⟨pre, l, post, h1, h2, h3, by rw [h4], ?_, ?_⟩
    · rw [h4]
      exact List.getElem?_set_self hlt
    · simp only [Order.itemCount, h1, List.length_append, List.length_cons]
      omega

set_option maxRecDepth 100000 in
/-- Witness for C12: removing `B01` from the two lines `S03 × 3`, `B01 × 2` of
`mergedSession` leaves the single line `S03 × 3`. -/
theorem removeItemFromOrder_deletes_the_line_witness :
    ((0 : Int) ≤ 0 ∧
      mergedSession.orders[(0 : Int).toNat]?
        = some ⟨9001, 0, 0, [⟨"S03", 3⟩, ⟨"B01", 2⟩], 0, 1⟩ ∧
      (⟨9001, 0, 0, [⟨"S03", 3⟩, ⟨"B01", 2⟩], 0, 1⟩ : Order).active ≠ 0) ∧
    ((removeItemFromOrder mergedSession 0 "B01").1 = 0 ↔
      ∃ it ∈ [(⟨"S03", 3⟩ : OrderItem), ⟨"B01", 2⟩], it.code = "B01") ∧
    (removeItemFromOrder mergedSession 0 "B01").2.orders
      = [⟨9001, 0, 0, [⟨"S03", 3⟩], 0, 1⟩] ∧
    (removeItemFromOrder mergedSession 0 "M01").1 = -1 :=
  ⟨⟨by decide, by decide, by decide⟩,
    (removeItemFromOrder_deletes_the_line mergedSession 0 "B01"
      ⟨9001, 0, 0, [⟨"S03", 3⟩, ⟨"B01", 2⟩], 0, 1⟩ (by decide) (by decide) (by decide)).1,
    by decide, by decide⟩

/-! ## The catalog stays the seed catalog -/

theorem map_set_of_eq {α β : Type} (f : α → β) (l : List α) (n : Nat) (a b : α)
    (h : l[n]? = some a) (hf : f b = f a) : (l.set n b).map f = l.map f := by
  induction l generalizing n with
  | nil => simp at h
  | cons x xs ih =>
    cases n with
    | zero =>
      simp only [List.getElem?_cons_zero, Option.some.injEq] at h
      subst h
      simp [hf]
    | succ k =>
      simp only [List.getElem?_cons_succ] at h
      simp [ih k h]

theorem catalogFixed_effect (s s1 : State) (h : CatalogFixed s) (he : StepEffect s s1) :
    CatalogFixed s1 := by
  rcases he with rfl | ⟨d, t, now, _, _, rfl⟩ | ⟨n, o, items1, _, _, rfl, _⟩ |
    ⟨n, mi, hmi, rfl⟩ | ⟨n, o, _, _, rfl⟩
  · exact h
  · exact h
  · exact h
  · unfold CatalogFixed at h ⊢
    rw [← h]
    exact map_set_of_eq _ _ n mi _ hmi rfl
  · exact h

theorem reachable_catalogFixed (s : State) (h : Reachable s) : CatalogFixed s := by
  induction h with
  | init => rfl
  | step op _ _ ih => exact catalogFixed_effect _ _ ih (step_effect _ op)

set_option maxRecDepth 100000 in
theorem initState_codes : initState.menuList.map MenuItem.code = seedCodes := by decide

theorem catalogFixed_codes (s : State) (h : CatalogFixed s) :
    s.menuList.map MenuItem.code = seedCodes := by
  have h1 := congrArg (List.map (fun p : String × String × Category × ℚ => p.1)) h
  simp only [List.map_map] at h1
  rw [← initState_codes]
  exact h1

set_option maxRecDepth 100000 in
theorem seedCodes_length : seedCodes.length = 29 := by decide

theorem catalogFixed_menuCount (s : State) (h : CatalogFixed s) : s.menuCount = 29 := by
  have h1 := congrArg List.length (catalogFixed_codes s h)
  rw [List.length_map, seedCodes_length] at h1
  exact h1

/-! ## Lines carry catalog codes -/

theorem shiftOut_mem (items items1 : List OrderItem) (c : String)
    (h : shiftOut items c = some items1) : ∀ x ∈ items1, x ∈ items :=
  fun _ hx => (shiftOut_sublist items items1 c h).subset hx

theorem linesStep_codes (menu : List MenuItem) (items items1 : List OrderItem)
    (hfit : ∀ m ∈ menu, m.code.length ≤ 5) (hl : LinesStep menu items items1)
    (h : ∀ it ∈ items, it.code ∈ menu.map MenuItem.code) :
    ∀ it ∈ items1, it.code ∈ menu.map MenuItem.code := by
  have hmap : ∀ l : List OrderItem, l.map OrderItem.code = items.map OrderItem.code →
      ∀ it ∈ l, it.code ∈ menu.map MenuItem.code := by
    intro l hl2 it hit
    have h1 : it.code ∈ l.map OrderItem.code := List.mem_map_of_mem _ hit
    rw [hl2] at h1
    rcases List.mem_map.1 h1 with ⟨it2, hit2, hcode⟩
    rw [← hcode]
    exact h it2 hit2
  rcases hl with ⟨c, q, _, hinc⟩ | ⟨c, q, _, ⟨m, hm, rfl⟩, _, _, rfl⟩ | ⟨c, hs⟩ |
    ⟨c, q, _, has⟩
  · exact hmap _ (incrementQty_codes _ _ _ _ hinc)
  · intro it hit
    rcases List.mem_append.1 hit with hit | hit
    · exact h it hit
    · simp only [List.mem_singleton] at hit
      subst hit
      simp only
      rw [strncpy_of_length_le _ _ (hfit m hm)]
      exact List.mem_map_of_mem _ hm
  · intro it hit
    exact h it (shiftOut_mem _ _ _ hs it hit)
  · exact hmap _ (assignQty_codes _ _ _ _ has)

theorem linesInCatalog_effect (s s1 : State) (hfit : MenuCodesFit s) (h : LinesInCatalog s)
    (he : StepEffect s s1) : LinesInCatalog s1 := by
  rcases he with rfl | ⟨d, t, now, _, _, rfl⟩ | ⟨n, o, items1, ho, _, rfl, hl⟩ |
    ⟨n, mi, hmi, rfl⟩ | ⟨n, o, ho, _, rfl⟩
  · exact h
  · intro o1 ho1
    simp only [createdState, List.mem_append, List.mem_singleton] at ho1
    rcases ho1 with ho1 | rfl
    · exact h o1 ho1
    · intro it hit
      simp at hit
  · intro o1 ho1
    rcases List.mem_or_eq_of_mem_set ho1 with ho1 | rfl
    · exact h o1 ho1
    · exact linesStep_codes _ _ _ hfit hl (h o (List.getElem?_mem ho))
  · intro o1 ho1 it hit
    have := h o1 ho1 it hit
    simp only
    rw [map_set_of_eq MenuItem.code s.menuList n mi
      { mi with available := if mi.available = 0 then 1 else 0 } hmi rfl]
    exact this
  · intro o1 ho1
    rcases List.mem_or_eq_of_mem_set ho1 with ho1 | rfl
    · exact h o1 ho1
    · exact h o (List.getElem?_mem ho)

set_option maxRecDepth 100000 in
theorem linesInCatalog_init : LinesInCatalog initState := by
  intro o ho
  have h1 : initState.orders = [] := by rfl
  rw [h1] at ho
  simp at ho

theorem reachable_linesInCatalog (s : State) (h : Reachable s) : LinesInCatalog s := by
  induction h with
  | init => exact linesInCatalog_init
  | step op hr _ ih =>
    exact linesInCatalog_effect _ _ (reachable_menuCodesFit _ hr) ih (step_effect _ op)

theorem reachable_itemCount_le (s : State) (h : Reachable s) (o : Order) (ho : o ∈ s.orders) :
    o.itemCount ≤ 29 := by
  have hnd := reachable_linesDistinct s h o ho
  have hin := reachable_linesInCatalog s h o ho
  have hcodes := catalogFixed_codes s (reachable_catalogFixed s h)
  have hsub : o.items.map OrderItem.code ⊆ seedCodes := by
    intro x hx
    rcases List.mem_map.1 hx with ⟨it, hit, rfl⟩
    rw [← hcodes]
    exact hin it hit
  have := (List.subperm_of_subset hnd hsub).length_le
  rw [List.length_map, seedCodes_length] at this
  exact this

theorem addItemToOrder_full (s : State) (i : Int) (c : String) (q : Int)
    (h : (addItemToOrder s i c q).1 = -2) :
    ∃ o, s.orders[i.toNat]? = some o ∧ o.itemCount ≥ MAX_ITEMS_PER_ORDER := by
  by_cases hg : ∃ o m, 0 ≤ i ∧ s.orders[i.toNat]? = some o ∧ o.active ≠ 0 ∧
      findMenuIndexByCode s.menuList c ≠ -1 ∧
      s.menuList[(findMenuIndexByCode s.menuList c).toNat]? = some m ∧ m.available ≠ 0
  · obtain ⟨o, m, hi, ho, ha, hm, hmi, hav⟩ := hg
    by_cases hq : 0 < q
    · rw [addItemToOrder_eval s i c q o m hq hi ho ha hm hmi hav] at h
      cases hinc : incrementQty o.items c q with
      | some items1 =>
        rw [hinc] at h
        simp at h
      | none =>
        rw [hinc] at h
        by_cases hfull : o.items.length ≥ 60
        · exact ⟨o, ho, hfull⟩
        · simp [hfull] at h
    · unfold addItemToOrder at h
      rw [if_pos (by omega)] at h
      simp at h
  · rw [addItemToOrder_guard_fail s i c hg q] at h
    simp at h

theorem findMenuIndexByCode_of_mem (menu : List MenuItem) (c : String)
    (h : c ∈ menu.map MenuItem.code) : findMenuIndexByCode menu c ≠ -1 := by
  intro hneg
  rcases findMenuIndexByCode_spec menu c with ⟨_, h2⟩ | ⟨h1, _⟩
  · rcases List.mem_map.1 h with ⟨m, hm, hmc⟩
    unfold refLookup at h2
    have := List.find?_eq_none.1 h2 m hm
    simp [hmc] at this
  · omega

/-- C14: in every reachable state the catalog has menuCount = 29 entries, every
line's code is a code of the seeded catalog, and every order has
itemCount ≤ menuCount = 29 < MAX_ITEMS_PER_ORDER, so the slot `items[itemCount]` an
append writes lies inside the array and `addItemToOrder` never returns the
order-full code -2. -/
theorem lines_in_catalog_and_order_never_full (s : State) (h : Reachable s) :
    s.menuCount = 29 ∧ 29 < MAX_ITEMS_PER_ORDER ∧
    (∀ o ∈ s.orders,
      (∀ it ∈ o.items, it.code ∈ seedCodes) ∧
      o.itemCount ≤ s.menuCount ∧ o.itemCount < MAX_ITEMS_PER_ORDER) ∧
    (∀ (i : Int) (c : String) (q : Int), (addItemToOrder s i c q).1 ≠ -2) := by
  have hcat := reachable_catalogFixed s h
  have hcount := catalogFixed_menuCount s hcat
  refine ⟨hcount, by decide, ?_, ?_⟩
  · intro o ho
    have hle := reachable_itemCount_le s h o ho
    refine ⟨?_, by rw [hcount]; exact hle, by unfold MAX_ITEMS_PER_ORDER; omega⟩
    intro it hit
    rw [← catalogFixed_codes s hcat]
    exact reachable_linesInCatalog s h o ho it hit
  · intro i c q hfull
    obtain ⟨o, ho, hge⟩ := addItemToOrder_full s i c q hfull
    have hle := reachable_itemCount_le s h o (List.getElem?_mem ho)
    unfold MAX_ITEMS_PER_ORDER at hge
    omega

set_option maxRecDepth 100000 in
/-- Witness for C14: the order of `mergedSession` has two lines, both with seed
codes, and another add does not return -2. -/
theorem lines_in_catalog_and_order_never_full_witness :
    Reachable mergedSession ∧ mergedSession.menuCount = 29 ∧
    mergedSession.orders.map Order.itemCount = [2] ∧
    (addItemToOrder mergedSession 0 "D01" 1).1 ≠ -2 := by
  have hr : Reachable mergedSession := reachable_run _ _ Reachable.init (by decide)
  have hw := lines_in_catalog_and_order_never_full mergedSession hr
  exact ⟨hr, hw.1, by decide, hw.2.2.2 0 "D01" 1⟩

/-! ## Remove, then add again -/

/-- C11, as amended: in a reachable state, for an active order with a line for code
c, a quantity q > 0 and c marked available in the catalog, `removeItemFromOrder(c)`
followed by `addItemToOrder(c, q)` both succeed and leave the order with the other
lines unchanged and in their order, followed by the one line for c with quantity
q. -/
theorem remove_then_add_restores_line (s : State) (h : Reachable s) (i : Int) (o : Order)
    (c : String) (q : Int) (hi : 0 ≤ i) (ho : s.orders[i.toNat]? = some o)
    (ha : o.active ≠ 0) (hc : ∃ it ∈ o.items, it.code = c) (hq : 0 < q)
    (hav : ∀ m ∈ s.menuList, m.code = c → m.available ≠ 0) :
    (removeItemFromOrder s i c).1 = 0 ∧
    (addItemToOrder (removeItemFromOrder s i c).2 i c q).1 = 0 ∧
    ∃ pre l post, o.items = pre ++ l :: post ∧ l.code = c ∧
      (∀ x ∈ pre ++ post, x.code ≠ c) ∧
      (addItemToOrder (removeItemFromOrder s i c).2 i c q).2.orders[i.toNat]?
        = some { o with items := pre ++ post ++ [⟨c, q⟩] } := by
  have hlt : i.toNat < s.orders.length := (List.getElem?_eq_some.1 ho).1
  have hmem : o ∈ s.orders := List.getElem?_mem ho
  obtain ⟨items1, hs⟩ := shiftOut_of_mem o.items c hc
  obtain ⟨pre, l, post, h1, h2, h3, h4⟩ := shiftOut_split _ _ _ hs
  subst h4
  have hrem := removeItemFromOrder_eval s i c o hi ho ha
  rw [hs] at hrem
  simp only at hrem
  -- no other line carries c
  have hnd := reachable_linesDistinct s h o hmem
  rw [h1, List.map_append, List.map_cons, h2] at hnd
  have hpost : ∀ x ∈ post, x.code ≠ c := by
    intro x hx hxc
    have hnd2 := (List.nodup_append.1 hnd).2.1
    rw [List.nodup_cons] at hnd2
    exact hnd2.1 (by rw [← hxc]; exact List.mem_map_of_mem _ hx)
  have hrest : ∀ x ∈ pre ++ post, x.code ≠ c := by
    intro x hx
    rcases List.mem_append.1 hx with hx | hx
    · exact h3 x hx
    · exact hpost x hx
  -- c is a catalog code, within the buffer size, and available
  have hlm : l ∈ o.items := by rw [h1]; simp
  have hcin : c ∈ s.menuList.map MenuItem.code := by
    rw [← h2]
    exact reachable_linesInCatalog s h o hmem l hlm
  have hm := findMenuIndexByCode_of_mem s.menuList c hcin
  obtain ⟨m, hmi, hmm, hmc⟩ := findMenuIndexByCode_found s.menuList c hm
  have hcode : strncpy c 5 = c := by
    rw [← hmc]
    exact strncpy_of_length_le _ _ (reachable_menuCodesFit s h m hmm)
  -- the order has room
  have hlen := reachable_itemCount_le s h o hmem
  have hroom : ¬ (pre ++ post).length ≥ 60 := by
    unfold Order.itemCount at hlen
    rw [h1] at hlen
    simp only [List.length_append, List.length_cons] at hlen ⊢
    omega
  have ho1 : (setOrder s i.toNat { o with items := pre ++ post }).orders[i.toNat]?
      = some { o with items := pre ++ post } := List.getElem?_set_self hlt
  have hadd := addItemToOrder_eval (setOrder s i.toNat { o with items := pre ++ post }) i c q
    { o with items := pre ++ post } m hq hi ho1 ha hm hmi (hav m hmm hmc)
  have hnone : incrementQty (pre ++ post) c q = none :=
    (incrementQty_eq_none_iff _ _ _).2 hrest
  simp only [hnone, hroom, if_false, hcode, setOrder_setOrder] at hadd
  rw [hrem]
  simp only
  rw [hadd]
  refine ⟨trivial, rfl, pre, l, post, h1, h2, hrest, ?_⟩
  exact List.getElem?_set_self hlt

set_option maxRecDepth 100000 in
/-- Witness for C11: in `mergedSession` (lines `S03 × 3`, `B01 × 2`), removing `S03`
and adding `S03 × 5` leaves `B01 × 2`, `S03 × 5`. -/
theorem remove_then_add_restores_line_witness :
    (Reachable mergedSession ∧ (0 : Int) ≤ 0 ∧
      mergedSession.orders[(0 : Int).toNat]?
        = some ⟨9001, 0, 0, [⟨"S03", 3⟩, ⟨"B01", 2⟩], 0, 1⟩ ∧
      (0 : Int) < 5 ∧ ∀ m ∈ mergedSession.menuList, m.code = "S03" → m.available ≠ 0) ∧
    (removeItemFromOrder mergedSession 0 "S03").1 = 0 ∧
    (addItemToOrder (removeItemFromOrder mergedSession 0 "S03").2 0 "S03" 5).1 = 0 ∧
    (addItemToOrder (removeItemFromOrder mergedSession 0 "S03").2 0 "S03" 5).2.orders
      = [⟨9001, 0, 0, [⟨"B01", 2⟩, ⟨"S03", 5⟩], 0, 1⟩] := by
  have hr : Reachable mergedSession := reachable_run _ _ Reachable.init (by decide)
  have hav : ∀ m ∈ mergedSession.menuList, m.code = "S03" → m.available ≠ 0 := by decide
  have hw := remove_then_add_restores_line mergedSession hr 0
    ⟨9001, 0, 0, [⟨"S03", 3⟩, ⟨"B01", 2⟩], 0, 1⟩ "S03" 5 (by decide) (by decide) (by decide)
    (by decide) (by decide) hav
  exact ⟨⟨hr, by decide, by decide, by decide, hav⟩, hw.1, hw.2.1, by decide⟩

set_option maxRecDepth 100000 in
/-- Counterexample to C11 as stated: in `unavailableSession` the active order has
the line `S01 × 2` and `S01` has been switched to unavailable; `removeItemFromOrder`
succeeds, `addItemToOrder("S01", 1)` then fails with -1 and the order is left
without a line for `S01`. -/
theorem remove_then_add_fails_when_unavailable :
    Reachable unavailableSession ∧
    unavailableSession.orders = [⟨9001, 0, 0, [⟨"S01", 2⟩], 0, 1⟩] ∧
    (0 : Int) < 1 ∧
    (removeItemFromOrder unavailableSession 0 "S01").1 = 0 ∧
    (addItemToOrder (removeItemFromOrder unavailableSession 0 "S01").2 0 "S01" 1).1 = -1 ∧
    (addItemToOrder (removeItemFromOrder unavailableSession 0 "S01").2 0 "S01" 1).2.orders
      = [⟨9001, 0, 0, [], 0, 1⟩] ∧
    ¬ ((removeItemFromOrder unavailableSession 0 "S01").1 = 0 ∧
      (addItemToOrder (removeItemFromOrder unavailableSession 0 "S01").2 0 "S01" 1).1 = 0) :=
  ⟨reachable_run _ _ Reachable.init (by decide), by decide, by decide, by decide, by decide,
    by decide, by decide⟩

/-! ## Receipt item table -/

theorem fmtLeft_length (w : Nat) (text : String) :
    (fmtLeft w text).length = max w text.length := by
  unfold fmtLeft
  rw [String.length_append]
  show text.length + (List.replicate (w - text.length) ' ').length = _
  rw [List.length_replicate]
  omega

theorem fmtLeft_of_length_ge (w : Nat) (text : String) (h : w ≤ text.length) :
    fmtLeft w text = text := by
  unfold fmtLeft
  rw [Nat.sub_eq_zero_of_le h]
  exact String.append_empty text

/-- The row written for a line whose code is in the catalog. -/
theorem receiptRow_of_mem (menu : List MenuItem) (it : OrderItem)
    (h : it.code ∈ menu.map MenuItem.code) :
    ∃ mi, mi ∈ menu ∧ mi.code = it.code ∧
      receiptRow menu it =
        some { code := fmtLeft 6 mi.code, item := fmtLeft 25 mi.name,
               qty := fmtLeft 6 (toString it.qty), amount := F32.mul (F32.fin mi.price) (F32.ofInt it.qty) } := by
  have hm := findMenuIndexByCode_of_mem menu it.code h
  obtain ⟨mi, hmi, hmem, hcode⟩ := findMenuIndexByCode_found menu it.code hm
  refine ⟨mi, hmem, hcode, ?_⟩
  unfold receiptRow
  simp only [hm, if_false, hmi]

set_option maxRecDepth 100000 in
theorem seed_names : ∀ m ∈ initState.menuList,
    (m.code ≠ "M03" → m.name.length ≤ 25) ∧
    (m.code = "M03" → m.name = "Hyderabadi Chicken Biryani") := by
  decide

theorem catalogFixed_names (s : State) (h : CatalogFixed s) (mi : MenuItem)
    (hmi : mi ∈ s.menuList) :
    (mi.code ≠ "M03" → mi.name.length ≤ 25) ∧
    (mi.code = "M03" → mi.name = "Hyderabadi Chicken Biryani") := by
  have h1 : (mi.code, mi.name, mi.category, mi.price) ∈
      s.menuList.map (fun m => (m.code, m.name, m.category, m.price)) :=
    List.mem_map.2 ⟨mi, hmi, rfl⟩
  rw [h] at h1
  rcases List.mem_map.1 h1 with ⟨m0, hm0, heq⟩
  simp only [Prod.mk.injEq] at heq
  obtain ⟨hc, hn, _, _⟩ := heq
  rw [← hc, ← hn]
  exact seed_names m0 hm0

/-- C13, as amended: in the receipt's item table, for every order line whose code
is in the default catalog, the Item column is the item name left-justified and
padded with blanks to at least 25 characters. It is exactly 25 characters wide for
every code but `M03`; the name of `M03`, "Hyderabadi Chicken Biryani", has 26
characters and is written in full (26 wide), not truncated. -/
theorem receipt_item_column (s : State) (h : Reachable s) (it : OrderItem)
    (hc : it.code ∈ seedCodes) :
    ∃ mi row, mi ∈ s.menuList ∧ mi.code = it.code ∧ receiptRow s.menuList it = some row ∧
      row.item = mi.name ++ ⟨List.replicate (25 - mi.name.length) ' '⟩ ∧
      row.item.length = max 25 mi.name.length ∧
      (it.code ≠ "M03" → row.item.length = 25) ∧
      (it.code = "M03" → row.item = "Hyderabadi Chicken Biryani" ∧ row.item.length = 26) := by
  have hcat := reachable_catalogFixed s h
  rw [← catalogFixed_codes s hcat] at hc
  obtain ⟨mi, hmem, hcode, hrow⟩ := receiptRow_of_mem s.menuList it hc
  obtain ⟨hshort, hlong⟩ := catalogFixed_names s hcat mi hmem
  refine ⟨mi, _, hmem, hcode, hrow, rfl, fmtLeft_length 25 mi.name, ?_, ?_⟩
  · intro hne
    have := hshort (by rw [hcode]; exact hne)
    show (fmtLeft 25 mi.name).length = 25
    rw [fmtLeft_length]
    omega
  · intro heq
    have hname := hlong (by rw [hcode]; exact heq)
    show fmtLeft 25 mi.name = _ ∧ (fmtLeft 25 mi.name).length = 26
    rw [hname]
    exact ⟨by decide, by decide⟩

set_option maxRecDepth 100000 in
/-- Witness for C13: the line `D05 × 2` in the state left by `initMenu`; its Item
column is "Kulfi" followed by 20 blanks. -/
theorem receipt_item_column_witness :
    (Reachable initState ∧ kulfiLine.code ∈ seedCodes) ∧
    (receiptRow initState.menuList kulfiLine).map ReceiptRow.item
      = some "Kulfi                    " ∧
    ∃ mi row, mi ∈ initState.menuList ∧ mi.code = kulfiLine.code ∧
      receiptRow initState.menuList kulfiLine = some row ∧ row.item.length = 25 := by
  obtain ⟨mi, row, h1, h2, h3, _, _, h6, _⟩ :=
    receipt_item_column initState Reachable.init kulfiLine (by decide)
  exact ⟨⟨Reachable.init, by decide⟩, by decide, mi, row, h1, h2, h3, h6 (by decide)⟩

set_option maxRecDepth 100000 in
/-- Counterexample to C13 as stated: `M03` is a code of the default catalog, and
the Item column of a line for `M03` is the 26-character name in full: it is neither
25 characters wide nor truncated to 25. -/
theorem receipt_item_column_of_M03_is_26_wide :
    biryaniLine.code ∈ seedCodes ∧
    (receiptRow initState.menuList biryaniLine).map ReceiptRow.item
      = some "Hyderabadi Chicken Biryani" ∧
    (receiptRow initState.menuList biryaniLine).map (fun r => r.item.length) = some 26 ∧
    ¬ ((receiptRow initState.menuList biryaniLine).map (fun r => r.item.length) = some 25) :=
  ⟨by decide, by decide, by decide, by decide⟩

/-! ## Binary32 rounding -/

theorem pow2_eq_zpow (k : Int) : pow2 k = (2 : ℚ) ^ k := by
  unfold pow2
  split
  · rename_i h
    rw [Nat.cast_pow, Nat.cast_ofNat, ← zpow_natCast, Int.toNat_of_nonneg h]
  · rename_i h
    have h2 : (0 : Int) ≤ -k := by omega
    rw [Nat.cast_pow, Nat.cast_ofNat, ← zpow_natCast, Int.toNat_of_nonneg h2, zpow_neg]
    simp

theorem pow2_pos (k : Int) : 0 < pow2 k := by
  rw [pow2_eq_zpow]
  positivity

theorem pow2_add (a b : Int) : pow2 (a + b) = pow2 a * pow2 b := by
  simp only [pow2_eq_zpow]
  exact zpow_add₀ (by norm_num) a b

theorem pow2_le_pow2 {a b : Int} : pow2 a ≤ pow2 b ↔ a ≤ b := by
  simp only [pow2_eq_zpow]
  exact zpow_le_zpow_iff_right₀ (by norm_num)

theorem pow2_lt_pow2 {a b : Int} : pow2 a < pow2 b ↔ a < b := by
  simp only [pow2_eq_zpow]
  exact zpow_lt_zpow_iff_right₀ (by norm_num)

theorem pow2_natCast (n : Nat) : pow2 (n : Int) = (2 : ℚ) ^ n := by
  rw [pow2_eq_zpow, zpow_natCast]

theorem log2Fuel_spec (fuel n : Nat) (hn : 1 ≤ n) (hf : n ≤ fuel) :
    2 ^ log2Fuel fuel n ≤ n ∧ n < 2 ^ (log2Fuel fuel n + 1) := by
  induction fuel generalizing n with
  | zero => omega
  | succ fuel ih =>
    unfold log2Fuel
    by_cases h2 : n < 2
    · rw [if_pos h2]
      have : n = 1 := by omega
      subst this
      simp
    · rw [if_neg h2]
      obtain ⟨h3, h4⟩ := ih (n / 2) (by omega) (by omega)
      rw [pow_succ, pow_succ, pow_succ]
      rw [pow_succ] at h4
      constructor <;> omega

theorem natLog2_spec (n : Nat) (hn : 1 ≤ n) :
    2 ^ natLog2 n ≤ n ∧ n < 2 ^ (natLog2 n + 1) :=
  log2Fuel_spec n n hn (Nat.le_refl n)

theorem abs_eq_natAbs_div_den (x : ℚ) : |x| = (x.num.natAbs : ℚ) / (x.den : ℚ) := by
  have h1 : (x.num.natAbs : ℚ) = |(x.num : ℚ)| := by
    rw [Nat.cast_natAbs, Int.cast_abs]
  rw [h1]
  conv_lhs => rw [← Rat.num_div_den x]
  rw [abs_div]
  congr 1
  exact abs_of_pos (by exact_mod_cast x.den_pos)

/-- The binary exponent brackets the magnitude. -/
theorem ilog2_spec (x : ℚ) (hx : x ≠ 0) :
    pow2 (ilog2 x) ≤ |x| ∧ |x| < pow2 (ilog2 x + 1) := by
  have hnum : 1 ≤ x.num.natAbs := by
    have : x.num ≠ 0 := Rat.num_ne_zero.2 hx
    omega
  have hden : 1 ≤ x.den := x.den_pos
  obtain ⟨ha1, ha2⟩ := natLog2_spec _ hnum
  obtain ⟨hb1, hb2⟩ := natLog2_spec _ hden
  have hdpos : (0 : ℚ) < (x.den : ℚ) := by exact_mod_cast x.den_pos
  have habs := abs_eq_natAbs_div_den x
  have ha1q : (2 : ℚ) ^ natLog2 x.num.natAbs ≤ (x.num.natAbs : ℚ) := by exact_mod_cast ha1
  have ha2q : (x.num.natAbs : ℚ) < (2 : ℚ) ^ (natLog2 x.num.natAbs + 1) := by
    exact_mod_cast ha2
  have hb1q : (2 : ℚ) ^ natLog2 x.den ≤ (x.den : ℚ) := by exact_mod_cast hb1
  have hb2q : (x.den : ℚ) < (2 : ℚ) ^ (natLog2 x.den + 1) := by exact_mod_cast hb2
  -- upper bound with k = a - b
  have hup : |x| < pow2 ((natLog2 x.num.natAbs : Int) - (natLog2 x.den : Int) + 1) := by
    rw [habs, div_lt_iff₀ hdpos]
    have e : pow2 ((natLog2 x.num.natAbs : Int) - (natLog2 x.den : Int) + 1)
        = (2 : ℚ) ^ (natLog2 x.num.natAbs + 1) / (2 : ℚ) ^ natLog2 x.den := by
      rw [pow2_eq_zpow, ← zpow_natCast, ← zpow_natCast, ← zpow_sub₀ (by norm_num)]
      congr 1
      push_cast
      ring
    rw [e, div_mul_eq_mul_div, lt_div_iff₀ (by positivity)]
    calc (x.num.natAbs : ℚ) * 2 ^ natLog2 x.den
        ≤ (x.num.natAbs : ℚ) * x.den := by
          apply mul_le_mul_of_nonneg_left hb1q (by positivity)
      _ < 2 ^ (natLog2 x.num.natAbs + 1) * x.den := by
          apply mul_lt_mul_of_pos_right ha2q hdpos
  -- lower bound with k - 1
  have hlow : pow2 ((natLog2 x.num.natAbs : Int) - (natLog2 x.den : Int) - 1) ≤ |x| := by
    rw [habs, le_div_iff₀ hdpos]
    have e : pow2 ((natLog2 x.num.natAbs : Int) - (natLog2 x.den : Int) - 1)
        = (2 : ℚ) ^ natLog2 x.num.natAbs / (2 : ℚ) ^ (natLog2 x.den + 1) := by
      rw [pow2_eq_zpow, ← zpow_natCast, ← zpow_natCast, ← zpow_sub₀ (by norm_num)]
      congr 1
      push_cast
      ring
    rw [e, div_mul_eq_mul_div, div_le_iff₀ (by positivity)]
    calc (2 : ℚ) ^ natLog2 x.num.natAbs * x.den
        ≤ (x.num.natAbs : ℚ) * x.den := by
          apply mul_le_mul_of_nonneg_right ha1q (le_of_lt hdpos)
      _ ≤ (x.num.natAbs : ℚ) * 2 ^ (natLog2 x.den + 1) := by
          apply mul_le_mul_of_nonneg_left (le_of_lt hb2q) (by positivity)
  unfold ilog2
  simp only
  split
  · rename_i h
    exact ⟨h, hup⟩
  · rename_i h
    refine ⟨hlow, ?_⟩
    rw [sub_add_cancel]
    exact lt_of_not_le h

theorem roundHalfEven_intCast (m : Int) : roundHalfEven (m : ℚ) = m := by
  unfold roundHalfEven
  simp

/-- A value within less than one half above an integer rounds to that integer. -/
theorem roundHalfEven_of_near (m : Int) (q : ℚ) (h1 : (m : ℚ) ≤ q) (h2 : q < m + 1 / 2) :
    roundHalfEven q = m := by
  have hf : ⌊q⌋ = m := by
    rw [Int.floor_eq_iff]
    constructor
    · exact h1
    · linarith
  unfold roundHalfEven
  rw [hf, if_pos (by linarith)]

/-- A positive value lying on the rounding grid of `x`, at or less than half a grid
step below `x`, is the rounding of `x`. -/
theorem round_of_grid (x G : ℚ) (m : Nat) (j : Int) (hx : 0 < x) (hG : G = (m : ℚ) * pow2 j)
    (hj : ilog2 x - 23 ≤ j) (hsub : -149 ≤ j) (h1 : G ≤ x)
    (h2 : x < G + pow2 (max (ilog2 x - 23) (-149)) / 2) (hbig : G < pow2 128) :
    F32.round x = F32.fin G := by
  have hx0 : x ≠ 0 := ne_of_gt hx
  have hle : max (ilog2 x - 23) (-149) ≤ j := max_le hj hsub
  obtain ⟨e, he⟩ : ∃ e, e = max (ilog2 x - 23) (-149) := ⟨_, rfl⟩
  rw [← he] at hle h2
  have hepos := pow2_pos e
  have hroundQ : roundQ x = (roundHalfEven (x / pow2 e) : ℚ) * pow2 e := by
    unfold roundQ
    rw [if_neg hx0, ← he]
  -- `G` is an integer multiple of the grid step
  have hGM : G = (((m * 2 ^ (j - e).toNat : Nat) : Int) : ℚ) * pow2 e := by
    have hje : (0 : Int) ≤ j - e := by omega
    have hp : pow2 j = pow2 (j - e) * pow2 e := by
      rw [← pow2_add]
      congr 1
      ring
    have hq : pow2 (j - e) = ((2 ^ (j - e).toNat : Nat) : ℚ) := by
      unfold pow2
      rw [if_pos hje]
    rw [hG, hp, hq]
    push_cast
    ring
  have hrhe : roundHalfEven (x / pow2 e) = ((m * 2 ^ (j - e).toNat : Nat) : Int) := by
    apply roundHalfEven_of_near
    · rw [le_div_iff₀ hepos, ← hGM]
      exact h1
    · rw [div_lt_iff₀ hepos, add_mul, ← hGM]
      linarith
  have hval : roundQ x = G := by
    rw [hroundQ, hrhe, ← hGM]
  have hG0 : 0 ≤ G := by
    rw [hG]
    exact mul_nonneg (by positivity) (le_of_lt (pow2_pos j))
  unfold F32.round
  rw [hval, if_neg (not_le.2 hbig), if_neg]
  have := pow2_pos 128
  linarith

theorem pow2_24 : pow2 24 = 16777216 := by
  rw [pow2_eq_zpow]
  norm_num

theorem pow2_128_gt : (16777216 : ℚ) < pow2 128 := by
  rw [← pow2_24]
  exact pow2_lt_pow2.2 (by norm_num)

/-- A natural number below `2 ^ 24` is a binary32 value: it rounds to itself. -/
theorem round_natCast (n : Nat) (hn : n < 16777216) : F32.round (n : ℚ) = F32.fin n := by
  by_cases h0 : n = 0
  · subst h0
    unfold F32.round roundQ
    have := pow2_pos 128
    simp only [Nat.cast_zero, if_true]
    rw [if_neg (by linarith), if_neg (by linarith)]
  have hpos : (0 : ℚ) < (n : ℚ) := by
    have : 0 < n := Nat.pos_of_ne_zero h0
    exact_mod_cast this
  have hlt : (n : ℚ) < pow2 24 := by
    rw [pow2_24]
    exact_mod_cast hn
  obtain ⟨g1, _⟩ := ilog2_spec (n : ℚ) (ne_of_gt hpos)
  rw [abs_of_pos hpos] at g1
  have hk : ilog2 (n : ℚ) < 24 := pow2_lt_pow2.1 (lt_of_le_of_lt g1 hlt)
  apply round_of_grid (n : ℚ) (n : ℚ) n 0 hpos
  · unfold pow2
    simp
  · omega
  · norm_num
  · exact le_refl _
  · have := pow2_pos (max (ilog2 (n : ℚ) - 23) (-149))
    linarith
  · have := pow2_128_gt
    rw [pow2_24] at hlt
    linarith

/-- The product of a value `n / 2 ^ j` (with `n < 2 ^ 24`) and `1 + 2 ^ (-26)` rounds back
to `n / 2 ^ j`. -/
theorem round_mul_one_add_eps (n j : Nat) (hn : n < 16777216) (hj : j ≤ 100) :
    F32.round ((n : ℚ) / 2 ^ j * (1 + 1 / 67108864)) = F32.fin ((n : ℚ) / 2 ^ j) := by
  by_cases h0 : n = 0
  · subst h0
    simp only [Nat.cast_zero, zero_div, zero_mul]
    exact round_natCast 0 (by norm_num)
  have hnpos : (0 : ℚ) < (n : ℚ) := by
    have : 0 < n := Nat.pos_of_ne_zero h0
    exact_mod_cast this
  have hGpos : (0 : ℚ) < (n : ℚ) / 2 ^ j := by positivity
  have hxpos : (0 : ℚ) < (n : ℚ) / 2 ^ j * (1 + 1 / 67108864) := by positivity
  have hGj : (n : ℚ) / 2 ^ j = (n : ℚ) * pow2 (-(j : Int)) := by
    rw [pow2_eq_zpow, zpow_neg, zpow_natCast]
    rfl
  -- the product stays below `2 ^ (24 - j)`
  have hnq : (n : ℚ) * (1 + 1 / 67108864) < 16777216 := by
    have h1 : (n : ℚ) ≤ 16777215 := by
      have : n ≤ 16777215 := by omega
      exact_mod_cast this
    linarith
  have hxlt : (n : ℚ) / 2 ^ j * (1 + 1 / 67108864) < pow2 (24 - (j : Int)) := by
    have e : pow2 (24 - (j : Int)) = 16777216 / 2 ^ j := by
      rw [sub_eq_add_neg, pow2_add, pow2_24, pow2_eq_zpow, zpow_neg, zpow_natCast]
      rfl
    rw [e, div_mul_eq_mul_div]
    exact div_lt_div_of_pos_right hnq (by positivity)
  obtain ⟨g1, g2⟩ := ilog2_spec _ (ne_of_gt hxpos)
  rw [abs_of_pos hxpos] at g1 g2
  have hk : ilog2 ((n : ℚ) / 2 ^ j * (1 + 1 / 67108864)) < 24 - (j : Int) :=
    pow2_lt_pow2.1 (lt_of_le_of_lt g1 hxlt)
  apply round_of_grid _ _ n (-(j : Int)) hxpos hGj
  · omega
  · omega
  · have : (n : ℚ) / 2 ^ j * (1 + 1 / 67108864) = (n : ℚ) / 2 ^ j + (n : ℚ) / 2 ^ j / 67108864 := by
      ring
    rw [this]
    linarith [div_pos hGpos (by norm_num : (0 : ℚ) < 67108864)]
  · -- the excess is below half a grid step
    set x := (n : ℚ) / 2 ^ j * (1 + 1 / 67108864) with hxdef
    have hgrid : pow2 (ilog2 x - 24) ≤ pow2 (max (ilog2 x - 23) (-149)) / 2 := by
      have h3 : pow2 (ilog2 x - 23) ≤ pow2 (max (ilog2 x - 23) (-149)) :=
        pow2_le_pow2.2 (le_max_left _ _)
      have h4 : pow2 (ilog2 x - 23) = pow2 (ilog2 x - 24) * 2 := by
        have : ilog2 x - 23 = (ilog2 x - 24) + 1 := by ring
        have h1 : pow2 1 = 2 := by norm_num [pow2_eq_zpow]
        rw [this, pow2_add, h1]
      linarith
    have hG_lt : (n : ℚ) / 2 ^ j < pow2 (ilog2 x + 1) := by
      have : (n : ℚ) / 2 ^ j ≤ x := by
        rw [hxdef]
        have : (n : ℚ) / 2 ^ j * (1 + 1 / 67108864)
            = (n : ℚ) / 2 ^ j + (n : ℚ) / 2 ^ j / 67108864 := by ring
        rw [this]
        linarith [div_pos hGpos (by norm_num : (0 : ℚ) < 67108864)]
      linarith
    have h5 : pow2 (ilog2 x + 1) = pow2 (ilog2 x - 24) * 33554432 := by
      have : ilog2 x + 1 = (ilog2 x - 24) + 25 := by ring
      have h25 : pow2 25 = 33554432 := by norm_num [pow2_eq_zpow]
      rw [this, pow2_add, h25]
    have hexc : x = (n : ℚ) / 2 ^ j + (n : ℚ) / 2 ^ j / 67108864 := by
      rw [hxdef]; ring
    have h6 : (n : ℚ) / 2 ^ j / 67108864 < pow2 (ilog2 x - 24) := by
      rw [div_lt_iff₀ (by norm_num)]
      have := pow2_pos (ilog2 x - 24)
      linarith
    linarith
  · have h1 : (n : ℚ) / 2 ^ j ≤ (n : ℚ) := by
      apply div_le_self (le_of_lt hnpos)
      exact one_le_pow₀ (by norm_num)
    have h2 : (n : ℚ) < 16777216 := by exact_mod_cast hn
    have := pow2_128_gt
    linarith

theorem round_zero : F32.round 0 = F32.fin 0 := round_natCast 0 (by norm_num)

/-- A whole number below `2 ^ 24` rounds to itself. -/
theorem round_of_nat_val (x : ℚ) (hx : ∃ n : Nat, x = n) (hlt : x < 16777216) :
    F32.round x = F32.fin x := by
  obtain ⟨n, rfl⟩ := hx
  exact round_natCast n (by exact_mod_cast hlt)

/-! ## Bill calculator: rates and the discount tiers -/

set_option maxRecDepth 100000 in
theorem GST_RATE_FOOD_eq : GST_RATE_FOOD = F32.fin (13421773 / 268435456) := by decide!

set_option maxRecDepth 100000 in
theorem SERVICE_RATE_eq : SERVICE_RATE = F32.fin (13421773 / 134217728) := by decide!

set_option maxRecDepth 100000 in
theorem DISCOUNT_TIER1_RATE_eq : DISCOUNT_TIER1_RATE = F32.round (10 / 100) := rfl

set_option maxRecDepth 100000 in
theorem DISCOUNT_TIER2_RATE_eq : DISCOUNT_TIER2_RATE = F32.round (15 / 100) := rfl

set_option maxRecDepth 100000 in
theorem DISCOUNT_TIER1_THRESHOLD_eq : DISCOUNT_TIER1_THRESHOLD = F32.fin 1000 := by decide!

set_option maxRecDepth 100000 in
theorem DISCOUNT_TIER2_THRESHOLD_eq : DISCOUNT_TIER2_THRESHOLD = F32.fin 2000 := by decide!

theorem gt_2000_false_of_gt_1000_false (t : F32) (h : F32.gt t (F32.fin 1000) = false) :
    F32.gt t (F32.fin 2000) = false := by
  cases t with
  | fin v =>
    simp only [F32.gt, decide_eq_false_iff_not, not_lt] at h ⊢
    linarith
  | pinf => simp [F32.gt] at h
  | ninf => rfl
  | nan => rfl

/-- The shape of every bill `calculateBill` returns: the discount and the total are
computed from the pre-discount sum of the three charges. -/
theorem bill_shape (sub gst svc : F32) :
    let temp := F32.add (F32.add sub gst) svc
    let d := if F32.gt temp DISCOUNT_TIER2_THRESHOLD then F32.mul temp DISCOUNT_TIER2_RATE
      else if F32.gt temp DISCOUNT_TIER1_THRESHOLD then F32.mul temp DISCOUNT_TIER1_RATE
      else F32.fin 0
    let b : Bill := ⟨sub, gst, svc, d, F32.sub temp d⟩
    b.total = F32.sub b.preDiscount b.discount ∧
    (F32.gt b.preDiscount (F32.fin 2000) = true →
      b.discount = F32.mul b.preDiscount (F32.round (15 / 100))) ∧
    (F32.gt b.preDiscount (F32.fin 2000) = false →
      F32.gt b.preDiscount (F32.fin 1000) = true →
      b.discount = F32.mul b.preDiscount (F32.round (10 / 100))) ∧
    (F32.gt b.preDiscount (F32.fin 1000) = false → b.discount = F32.fin 0) ∧
    (b.preDiscount = F32.fin 1000 → b.discount = F32.fin 0 ∧ b.total = F32.fin 1000) ∧
    (b.preDiscount = F32.fin 2000 → b.discount = F32.fin 200 ∧ b.total = F32.fin 1800) := by
  intro temp d b
  have hpre : b.preDiscount = temp := rfl
  have htot : b.total = F32.sub temp d := rfl
  have hdis : b.discount = d := rfl
  have hd : d = if F32.gt temp (F32.fin 2000) then F32.mul temp (F32.round (15 / 100))
      else if F32.gt temp (F32.fin 1000) then F32.mul temp (F32.round (10 / 100))
      else F32.fin 0 := by
    show (if F32.gt temp DISCOUNT_TIER2_THRESHOLD then F32.mul temp DISCOUNT_TIER2_RATE
      else if F32.gt temp DISCOUNT_TIER1_THRESHOLD then F32.mul temp DISCOUNT_TIER1_RATE
      else F32.fin 0) = _
    rw [DISCOUNT_TIER2_THRESHOLD_eq, DISCOUNT_TIER1_THRESHOLD_eq, DISCOUNT_TIER2_RATE_eq,
      DISCOUNT_TIER1_RATE_eq]
  rw [hpre, htot, hdis]
  refine ⟨rfl, ?_, ?_, ?_, ?_, ?_⟩
  · intro h
    rw [hd, if_pos h]
  · intro h1 h2
    rw [hd, if_neg (by rw [h1]; decide), if_pos h2]
  · intro h1
    have h2 := gt_2000_false_of_gt_1000_false temp h1
    rw [hd, if_neg (by rw [h2]; decide), if_neg (by rw [h1]; decide)]
  · intro h
    have e1 : d = F32.fin 0 := by
      rw [hd, h]
      decide!
    rw [e1, h]
    exact ⟨rfl, by decide!⟩
  · intro h
    have e1 : d = F32.fin 200 := by
      rw [hd, h]
      decide!
    rw [e1, h]
    exact ⟨rfl, by decide!⟩

/-! ## Bill calculator: rounding error of the discount and the total -/

/-- Rounding to the nearest integer moves a value by at most one half. -/
theorem roundHalfEven_near (q : ℚ) : |(roundHalfEven q : ℚ) - q| ≤ 1 / 2 := by
  have h1 : (⌊q⌋ : ℚ) ≤ q := Int.floor_le q
  have h2 : q < (⌊q⌋ : ℚ) + 1 := Int.lt_floor_add_one q
  unfold roundHalfEven
  by_cases c1 : q - (⌊q⌋ : ℚ) < 1 / 2
  · rw [if_pos c1, abs_le]
    constructor <;> linarith
  · rw [if_neg c1]
    by_cases c2 : 1 / 2 < q - (⌊q⌋ : ℚ)
    · rw [if_pos c2, abs_le]
      push_cast
      constructor <;> linarith
    · rw [if_neg c2]
      have c3 : q - (⌊q⌋ : ℚ) = 1 / 2 := le_antisymm (not_lt.1 c2) (not_lt.1 c1)
      by_cases c4 : ⌊q⌋ % 2 = 0
      · rw [if_pos c4, abs_le]
        constructor <;> linarith
      · rw [if_neg c4, abs_le]
        push_cast
        constructor <;> linarith

/-- In the normal range a value rounds to a finite binary32 value with relative
error at most `2 ^ (-24)`. -/
theorem round_near (x : ℚ) (h1 : pow2 (-126) ≤ |x|) (h2 : |x| < pow2 127) :
    ∃ r, F32.round x = F32.fin r ∧ |r - x| ≤ |x| / 16777216 := by
  have hx0 : x ≠ 0 := by
    intro h0
    rw [h0, abs_zero] at h1
    exact absurd (pow2_pos (-126)) (not_lt.2 h1)
  obtain ⟨g1, g2⟩ := ilog2_spec x hx0
  have hk : -126 < ilog2 x + 1 := pow2_lt_pow2.1 (lt_of_le_of_lt h1 g2)
  have he : max (ilog2 x - 23) (-149) = ilog2 x - 23 := max_eq_left (by omega)
  have hepos := pow2_pos (ilog2 x - 23)
  have hroundQ : roundQ x
      = (roundHalfEven (x / pow2 (ilog2 x - 23)) : ℚ) * pow2 (ilog2 x - 23) := by
    unfold roundQ
    rw [if_neg hx0, he]
  have hstep : pow2 (ilog2 x) = pow2 (ilog2 x - 23) * 8388608 := by
    have h23 : pow2 23 = 8388608 := by norm_num [pow2_eq_zpow]
    have : ilog2 x = (ilog2 x - 23) + 23 := by ring
    conv_lhs => rw [this]
    rw [pow2_add, h23]
  have hnear := roundHalfEven_near (x / pow2 (ilog2 x - 23))
  have herr : |roundQ x - x| ≤ pow2 (ilog2 x - 23) / 2 := by
    have e : roundQ x - x
        = ((roundHalfEven (x / pow2 (ilog2 x - 23)) : ℚ) - x / pow2 (ilog2 x - 23))
          * pow2 (ilog2 x - 23) := by
      rw [hroundQ, sub_mul, div_mul_cancel₀ _ (ne_of_gt hepos)]
    rw [e, abs_mul, abs_of_pos hepos]
    calc |(roundHalfEven (x / pow2 (ilog2 x - 23)) : ℚ) - x / pow2 (ilog2 x - 23)|
          * pow2 (ilog2 x - 23)
        ≤ 1 / 2 * pow2 (ilog2 x - 23) := mul_le_mul_of_nonneg_right hnear (le_of_lt hepos)
      _ = pow2 (ilog2 x - 23) / 2 := by ring
  have herr2 : |roundQ x - x| ≤ |x| / 16777216 := by
    have : pow2 (ilog2 x - 23) / 2 ≤ |x| / 16777216 := by
      rw [hstep] at g1
      linarith
    linarith
  have habs : |roundQ x| < pow2 128 := by
    have h3 : |roundQ x| ≤ |roundQ x - x| + |x| := by
      have := abs_add (roundQ x - x) x
      simpa using this
    have h128 : pow2 128 = pow2 127 * 2 := by
      have h1 : pow2 1 = 2 := by norm_num [pow2_eq_zpow]
      have : (128 : Int) = 127 + 1 := by norm_num
      rw [this, pow2_add, h1]
    have hxpos : 0 ≤ |x| := abs_nonneg x
    rw [h128]
    linarith
  refine ⟨roundQ x, ?_, herr2⟩
  rw [abs_lt] at habs
  unfold F32.round
  rw [if_neg (not_le.2 habs.2), if_neg (not_le.2 habs.1)]


theorem pow2_neg126_le_one : pow2 (-126) ≤ 1 := by
  have h : pow2 (-126) ≤ pow2 0 := pow2_le_pow2.2 (by norm_num)
  have h0 : pow2 0 = 1 := by norm_num [pow2_eq_zpow]
  rw [h0] at h
  exact h

theorem pow2_127 : pow2 127 = 2 ^ 127 := by
  rw [pow2_eq_zpow]
  norm_cast

/-- A discount `p * c` at a rate near `r`, and the total `p - discount`, are finite
and within one rounding of their exact values. -/
theorem mul_sub_near (p c r : ℚ) (hp : 1000 < p) (hp2 : p < 2 ^ 127)
    (hc1 : 1 / 16 ≤ c) (hc2 : c ≤ 1 / 4) (hr : |c - r| ≤ 1 / 67108864) :
    ∃ d t, F32.mul (F32.fin p) (F32.fin c) = F32.fin d ∧
      F32.sub (F32.fin p) (F32.fin d) = F32.fin t ∧
      |d - r * p| ≤ p / 2 ^ 25 ∧ |t - (p - d)| ≤ (p - d) / 2 ^ 24 := by
  have hlow := pow2_neg126_le_one
  rw [← pow2_127] at hp2
  have hpc1 : p / 16 ≤ p * c := by nlinarith
  have hpc2 : p * c ≤ p / 4 := by nlinarith
  have hpcpos : 0 < p * c := by linarith
  obtain ⟨d, hd, hderr⟩ := round_near (p * c)
    (by rw [abs_of_pos hpcpos]; linarith) (by rw [abs_of_pos hpcpos]; linarith)
  rw [abs_of_pos hpcpos, abs_le] at hderr
  have hd1 : d ≤ p * 3 / 10 := by linarith
  have hd2 : 0 ≤ d := by linarith
  have hpdpos : 0 < p + -d := by linarith
  obtain ⟨t, ht, hterr⟩ := round_near (p + -d)
    (by rw [abs_of_pos hpdpos]; linarith) (by rw [abs_of_pos hpdpos]; linarith)
  rw [abs_of_pos hpdpos] at hterr
  refine ⟨d, t, hd, ht, ?_, ?_⟩
  · rw [abs_le] at hr ⊢
    have e1 : p * (c - r) ≤ p * (1 / 67108864) :=
      mul_le_mul_of_nonneg_left hr.2 (by linarith)
    have e2 : p * (-(1 / 67108864)) ≤ p * (c - r) :=
      mul_le_mul_of_nonneg_left hr.1 (by linarith)
    constructor <;> norm_num at * <;> linarith
  · have e : p - d = p + -d := by ring
    rw [e]
    norm_num at *
    linarith


set_option maxRecDepth 100000 in
theorem round_tier2_rate : F32.round (15 / 100) = F32.fin (5033165 / 33554432) := by decide!

set_option maxRecDepth 100000 in
theorem round_tier1_rate : F32.round (10 / 100) = F32.fin (13421773 / 134217728) := by decide!

/-- The discount and the total of a bill are within one rounding of the exact
products and differences. -/
theorem bill_near (sub gst svc : F32) :
    let temp := F32.add (F32.add sub gst) svc
    let d := if F32.gt temp DISCOUNT_TIER2_THRESHOLD then F32.mul temp DISCOUNT_TIER2_RATE
      else if F32.gt temp DISCOUNT_TIER1_THRESHOLD then F32.mul temp DISCOUNT_TIER1_RATE
      else F32.fin 0
    let b : Bill := ⟨sub, gst, svc, d, F32.sub temp d⟩
    (∀ p : ℚ, b.preDiscount = F32.fin p → 2000 < p → p < 2 ^ 127 →
      ∃ x t : ℚ, b.discount = F32.fin x ∧ b.total = F32.fin t ∧
        |x - 15 / 100 * p| ≤ p / 2 ^ 25 ∧ |t - (p - x)| ≤ (p - x) / 2 ^ 24) ∧
    (∀ p : ℚ, b.preDiscount = F32.fin p → 1000 < p → p ≤ 2000 →
      ∃ x t : ℚ, b.discount = F32.fin x ∧ b.total = F32.fin t ∧
        |x - 10 / 100 * p| ≤ p / 2 ^ 25 ∧ |t - (p - x)| ≤ (p - x) / 2 ^ 24) := by
  intro temp d b
  have hpre : b.preDiscount = temp := rfl
  have htot : b.total = F32.sub temp d := rfl
  have hdis : b.discount = d := rfl
  have hd : d = if F32.gt temp (F32.fin 2000) then F32.mul temp (F32.fin (5033165 / 33554432))
      else if F32.gt temp (F32.fin 1000) then F32.mul temp (F32.fin (13421773 / 134217728))
      else F32.fin 0 := by
    show (if F32.gt temp DISCOUNT_TIER2_THRESHOLD then F32.mul temp DISCOUNT_TIER2_RATE
      else if F32.gt temp DISCOUNT_TIER1_THRESHOLD then F32.mul temp DISCOUNT_TIER1_RATE
      else F32.fin 0) = _
    rw [DISCOUNT_TIER2_THRESHOLD_eq, DISCOUNT_TIER1_THRESHOLD_eq, DISCOUNT_TIER2_RATE_eq,
      DISCOUNT_TIER1_RATE_eq, round_tier2_rate, round_tier1_rate]
  rw [hpre, htot, hdis]
  constructor
  · intro p h hp1 hp2
    have hgt : F32.gt (F32.fin p) (F32.fin 2000) = true := by
      simp only [F32.gt, decide_eq_true_eq]
      exact hp1
    obtain ⟨x, t, h1, h2, h3, h4⟩ := mul_sub_near p (5033165 / 33554432) (15 / 100)
      (by linarith) hp2 (by norm_num) (by norm_num) (by norm_num [abs_le])
    have e1 : d = F32.fin x := by
      rw [hd, h, if_pos hgt]
      exact h1
    refine ⟨x, t, e1, ?_, h3, h4⟩
    rw [e1, h]
    exact h2
  · intro p h hp1 hp2
    have hgt2 : F32.gt (F32.fin p) (F32.fin 2000) = false := by
      simp only [F32.gt, decide_eq_false_iff_not, not_lt]
      exact hp2
    have hgt1 : F32.gt (F32.fin p) (F32.fin 1000) = true := by
      simp only [F32.gt, decide_eq_true_eq]
      exact hp1
    have hp127 : p < 2 ^ 127 := lt_of_le_of_lt hp2 (by norm_num)
    obtain ⟨x, t, h1, h2, h3, h4⟩ := mul_sub_near p (13421773 / 134217728) (10 / 100)
      hp1 hp127 (by norm_num) (by norm_num) (by norm_num [abs_le])
    have e1 : d = F32.fin x := by
      rw [hd, h, if_neg (by rw [hgt2]; decide), if_pos hgt1]
      exact h1
    refine ⟨x, t, e1, ?_, h3, h4⟩
    rw [e1, h]
    exact h2

/-- C1, as amended: `calculateBill` returns total = pre - discount as a `float`
difference, where pre is the `float` sum subtotal + gst + service; the discount is
the `float` product pre * 0.15f when pre > 2000, pre * 0.10f when pre > 1000 but not
pre > 2000, and 0 otherwise, each `float` operation being the exact one rounded to
the nearest binary32 value; pre = 1000.00 exactly gives discount 0 (total 1000) and
pre = 2000.00 exactly gives the 10% tier (discount exactly 200, total 1800). Read as
real numbers the equalities hold up to that rounding: for a finite pre = p with
2000 < p < 2 ^ 127 the discount is within p / 2 ^ 25 of 0.15 * p, for
1000 < p ≤ 2000 it is within p / 2 ^ 25 of 0.10 * p, and in both cases the total is
within (p - discount) / 2 ^ 24 of p - discount. -/
theorem calculateBill_total_and_discount (s : State) (orderIdx : Int) :
    (calculateBill s orderIdx).total
      = F32.sub (calculateBill s orderIdx).preDiscount (calculateBill s orderIdx).discount ∧
    (F32.gt (calculateBill s orderIdx).preDiscount (F32.fin 2000) = true →
      (calculateBill s orderIdx).discount
        = F32.mul (calculateBill s orderIdx).preDiscount (F32.round (15 / 100))) ∧
    (F32.gt (calculateBill s orderIdx).preDiscount (F32.fin 2000) = false →
      F32.gt (calculateBill s orderIdx).preDiscount (F32.fin 1000) = true →
      (calculateBill s orderIdx).discount
        = F32.mul (calculateBill s orderIdx).preDiscount (F32.round (10 / 100))) ∧
    (F32.gt (calculateBill s orderIdx).preDiscount (F32.fin 1000) = false →
      (calculateBill s orderIdx).discount = F32.fin 0) ∧
    ((calculateBill s orderIdx).preDiscount = F32.fin 1000 →
      (calculateBill s orderIdx).discount = F32.fin 0 ∧
      (calculateBill s orderIdx).total = F32.fin 1000) ∧
    ((calculateBill s orderIdx).preDiscount = F32.fin 2000 →
      (calculateBill s orderIdx).discount = F32.fin 200 ∧
      (calculateBill s orderIdx).total = F32.fin 1800) ∧
    (∀ p : ℚ, (calculateBill s orderIdx).preDiscount = F32.fin p → 2000 < p → p < 2 ^ 127 →
      ∃ x t : ℚ, (calculateBill s orderIdx).discount = F32.fin x ∧
        (calculateBill s orderIdx).total = F32.fin t ∧
        |x - 15 / 100 * p| ≤ p / 2 ^ 25 ∧ |t - (p - x)| ≤ (p - x) / 2 ^ 24) ∧
    (∀ p : ℚ, (calculateBill s orderIdx).preDiscount = F32.fin p → 1000 < p → p ≤ 2000 →
      ∃ x t : ℚ, (calculateBill s orderIdx).discount = F32.fin x ∧
        (calculateBill s orderIdx).total = F32.fin t ∧
        |x - 10 / 100 * p| ≤ p / 2 ^ 25 ∧ |t - (p - x)| ≤ (p - x) / 2 ^ 24) := by
  have hzero : (⟨F32.fin 0, F32.fin 0, F32.fin 0, F32.fin 0, F32.fin 0⟩ : Bill)
      = ⟨F32.fin 0, F32.fin 0, F32.fin 0,
          (if F32.gt (F32.add (F32.add (F32.fin 0) (F32.fin 0)) (F32.fin 0))
              DISCOUNT_TIER2_THRESHOLD then
            F32.mul (F32.add (F32.add (F32.fin 0) (F32.fin 0)) (F32.fin 0)) DISCOUNT_TIER2_RATE
          else if F32.gt (F32.add (F32.add (F32.fin 0) (F32.fin 0)) (F32.fin 0))
              DISCOUNT_TIER1_THRESHOLD then
            F32.mul (F32.add (F32.add (F32.fin 0) (F32.fin 0)) (F32.fin 0)) DISCOUNT_TIER1_RATE
          else F32.fin 0),
          F32.sub (F32.add (F32.add (F32.fin 0) (F32.fin 0)) (F32.fin 0))
            (if F32.gt (F32.add (F32.add (F32.fin 0) (F32.fin 0)) (F32.fin 0))
                DISCOUNT_TIER2_THRESHOLD then
              F32.mul (F32.add (F32.add (F32.fin 0) (F32.fin 0)) (F32.fin 0))
                DISCOUNT_TIER2_RATE
            else if F32.gt (F32.add (F32.add (F32.fin 0) (F32.fin 0)) (F32.fin 0))
                DISCOUNT_TIER1_THRESHOLD then
              F32.mul (F32.add (F32.add (F32.fin 0) (F32.fin 0)) (F32.fin 0))
                DISCOUNT_TIER1_RATE
            else F32.fin 0)⟩ := by
    decide!
  have hall : ∀ sub gst svc : F32,
      let temp := F32.add (F32.add sub gst) svc
      let d := if F32.gt temp DISCOUNT_TIER2_THRESHOLD then F32.mul temp DISCOUNT_TIER2_RATE
        else if F32.gt temp DISCOUNT_TIER1_THRESHOLD then F32.mul temp DISCOUNT_TIER1_RATE
        else F32.fin 0
      let b : Bill := ⟨sub, gst, svc, d, F32.sub temp d⟩
      b.total = F32.sub b.preDiscount b.discount ∧
      (F32.gt b.preDiscount (F32.fin 2000) = true →
        b.discount = F32.mul b.preDiscount (F32.round (15 / 100))) ∧
      (F32.gt b.preDiscount (F32.fin 2000) = false →
        F32.gt b.preDiscount (F32.fin 1000) = true →
        b.discount = F32.mul b.preDiscount (F32.round (10 / 100))) ∧
      (F32.gt b.preDiscount (F32.fin 1000) = false → b.discount = F32.fin 0) ∧
      (b.preDiscount = F32.fin 1000 → b.discount = F32.fin 0 ∧ b.total = F32.fin 1000) ∧
      (b.preDiscount = F32.fin 2000 → b.discount = F32.fin 200 ∧ b.total = F32.fin 1800) ∧
      (∀ p : ℚ, b.preDiscount = F32.fin p → 2000 < p → p < 2 ^ 127 →
        ∃ x t : ℚ, b.discount = F32.fin x ∧ b.total = F32.fin t ∧
          |x - 15 / 100 * p| ≤ p / 2 ^ 25 ∧ |t - (p - x)| ≤ (p - x) / 2 ^ 24) ∧
      (∀ p : ℚ, b.preDiscount = F32.fin p → 1000 < p → p ≤ 2000 →
        ∃ x t : ℚ, b.discount = F32.fin x ∧ b.total = F32.fin t ∧
          |x - 10 / 100 * p| ≤ p / 2 ^ 25 ∧ |t - (p - x)| ≤ (p - x) / 2 ^ 24) := by
    intro sub gst svc
    obtain ⟨a1, a2, a3, a4, a5, a6⟩ := bill_shape sub gst svc
    obtain ⟨b1, b2⟩ := bill_near sub gst svc
    exact ⟨a1, a2, a3, a4, a5, a6, b1, b2⟩
  unfold calculateBill
  split
  · rw [hzero]
    exact hall (F32.fin 0) (F32.fin 0) (F32.fin 0)
  · split
    · rw [hzero]
      exact hall (F32.fin 0) (F32.fin 0) (F32.fin 0)
    · rename_i o _
      exact hall (billLoop s.menuList o.items (F32.fin 0) (F32.fin 0)).1
        (F32.mul (billLoop s.menuList o.items (F32.fin 0) (F32.fin 0)).2 GST_RATE_FOOD)
        (if o.dineIn ≠ 0 then
          F32.mul (billLoop s.menuList o.items (F32.fin 0) (F32.fin 0)).1 SERVICE_RATE
         else F32.fin 0)

set_option maxRecDepth 100000 in
theorem chaiSession_25_bill : calculateBill (chaiSession 25) 0
    = ⟨F32.fin 1000, F32.fin 0, F32.fin 0, F32.fin 0, F32.fin 1000⟩ := by decide!

set_option maxRecDepth 100000 in
theorem chaiSession_50_bill : calculateBill (chaiSession 50) 0
    = ⟨F32.fin 2000, F32.fin 0, F32.fin 0, F32.fin 200, F32.fin 1800⟩ := by decide!

set_option maxRecDepth 100000 in
theorem scenario3_bill : calculateBill scenario3 0
    = ⟨F32.fin 1760, F32.fin 84, F32.fin 176, F32.fin 303, F32.fin 1717⟩ := by decide!

set_option maxRecDepth 100000 in
/-- Witness for C1: a pre-discount amount of exactly 1000 gives no discount, one of
exactly 2000 gives the 10% tier, and scenario 3 of the specification (pre 2020) gives
the 15% tier, with a discount within 2020 / 2 ^ 25 of 303. -/
theorem calculateBill_total_and_discount_witness :
    ((calculateBill (chaiSession 25) 0).preDiscount = F32.fin 1000 ∧
      (calculateBill (chaiSession 25) 0).discount = F32.fin 0 ∧
      (calculateBill (chaiSession 25) 0).total = F32.fin 1000) ∧
    ((calculateBill (chaiSession 50) 0).preDiscount = F32.fin 2000 ∧
      (calculateBill (chaiSession 50) 0).discount = F32.fin 200 ∧
      (calculateBill (chaiSession 50) 0).total = F32.fin 1800) ∧
    (F32.gt (calculateBill scenario3 0).preDiscount (F32.fin 2000) = true ∧
      (calculateBill scenario3 0).discount
        = F32.mul (calculateBill scenario3 0).preDiscount (F32.round (15 / 100)) ∧
      (calculateBill scenario3 0).discount = F32.fin 303) ∧
    ((calculateBill scenario3 0).preDiscount = F32.fin 2020 ∧
      ∃ x t : ℚ, (calculateBill scenario3 0).discount = F32.fin x ∧
        (calculateBill scenario3 0).total = F32.fin t ∧
        |x - 15 / 100 * 2020| ≤ 2020 / 2 ^ 25 ∧ |t - (2020 - x)| ≤ (2020 - x) / 2 ^ 24) := by
  have h25 : (calculateBill (chaiSession 25) 0).preDiscount = F32.fin 1000 := by
    rw [chaiSession_25_bill]; decide!
  have h50 : (calculateBill (chaiSession 50) 0).preDiscount = F32.fin 2000 := by
    rw [chaiSession_50_bill]; decide!
  have h3 : F32.gt (calculateBill scenario3 0).preDiscount (F32.fin 2000) = true := by
    rw [scenario3_bill]; decide!
  have h2020 : (calculateBill scenario3 0).preDiscount = F32.fin 2020 := by
    rw [scenario3_bill]; decide!
  exact ⟨⟨h25, (calculateBill_total_and_discount (chaiSession 25) 0).2.2.2.2.1 h25⟩,
    ⟨h50, (calculateBill_total_and_discount (chaiSession 50) 0).2.2.2.2.2.1 h50⟩,
    ⟨h3, (calculateBill_total_and_discount scenario3 0).2.1 h3, by rw [scenario3_bill]⟩,
    ⟨h2020, (calculateBill_total_and_discount scenario3 0).2.2.2.2.2.2.1 2020 h2020
      (by norm_num) (by norm_num)⟩⟩

set_option maxRecDepth 100000 in
/-- Counterexample to C1 as stated: for the takeaway order `B01 × 75` the code
returns subtotal 3000, gst 0, service 0, discount 450.000030517578125
(= 14745601 / 32768) and total 2550. Read as exact values, pre = 3000 > 2000 but the
discount is not 0.15 * pre = 450, and the total is not
subtotal + gst + service - discount. -/
theorem calculateBill_discount_and_total_are_rounded :
    calculateBill (chaiSession 75) 0
      = ⟨F32.fin 3000, F32.fin 0, F32.fin 0, F32.fin (14745601 / 32768), F32.fin 2550⟩ ∧
    (2000 : ℚ) < 3000 + 0 + 0 ∧
    (14745601 / 32768 : ℚ) ≠ 15 / 100 * (3000 + 0 + 0) ∧
    (2550 : ℚ) ≠ 3000 + 0 + 0 - 14745601 / 32768 := by
  refine ⟨by decide!, by norm_num, by norm_num, by norm_num⟩

/-! ## Bill calculator: exact charges -/

theorem priceStep5_nat (p : ℚ) (h : PriceStep5 p) : ∃ n : Nat, 0 < n ∧ p = 5 * (n : ℚ) := by
  obtain ⟨hpos, hden⟩ := h
  have hq : ((p / 5).num : ℚ) = p / 5 := Rat.coe_int_num_of_den_eq_one hden
  have hnum : 0 < (p / 5).num := by
    have : (0 : ℚ) < ((p / 5).num : ℚ) := by rw [hq]; positivity
    exact_mod_cast this
  refine ⟨(p / 5).num.toNat, by omega, ?_⟩
  have hcast : (((p / 5).num.toNat : Nat) : ℚ) = ((p / 5).num : ℚ) := by
    have : (((p / 5).num.toNat : Nat) : Int) = (p / 5).num := Int.toNat_of_nonneg (le_of_lt hnum)
    exact_mod_cast this
  rw [hcast, hq]
  ring

/-- The amount of a line is computed exactly when it stays below `2 ^ 24`. -/
theorem lineAmount_exact (p : ℚ) (q : Int) (hp : PriceStep5 p) (hq : 0 < q)
    (hlt : p * (q : ℚ) < 16777216) :
    F32.mul (F32.fin p) (F32.ofInt q) = F32.fin (p * (q : ℚ)) ∧
    ∃ n : Nat, p * (q : ℚ) = 5 * (n : ℚ) := by
  obtain ⟨n, hn, rfl⟩ := priceStep5_nat p hp
  obtain ⟨k, rfl⟩ : ∃ k : Nat, q = (k : Int) := ⟨q.toNat, (Int.toNat_of_nonneg (le_of_lt hq)).symm⟩
  have hk : 0 < k := by omega
  have hprod : 5 * n * k < 16777216 := by
    have : ((5 * n * k : Nat) : ℚ) < 16777216 := by
      push_cast
      push_cast at hlt
      linarith
    exact_mod_cast this
  have hklt : k < 16777216 := by
    have : k ≤ 5 * n * k := by
      calc k = 1 * k := (Nat.one_mul k).symm
        _ ≤ (5 * n) * k := Nat.mul_le_mul_right k (by omega)
    omega
  have hq1 : F32.ofInt (k : Int) = F32.fin (k : ℚ) := by
    unfold F32.ofInt
    rw [Int.cast_natCast]
    exact round_natCast k hklt
  refine ⟨?_, n * k, by push_cast; ring⟩
  rw [hq1]
  show F32.round (5 * (n : ℚ) * (k : ℚ)) = _
  have e : (5 * (n : ℚ) * (k : ℚ)) = ((5 * n * k : Nat) : ℚ) := by push_cast; ring
  rw [Int.cast_natCast, e]
  exact round_natCast _ hprod

theorem refLineAmount_mul5 (menu : List MenuItem) (hprice : ∀ m ∈ menu, PriceStep5 m.price)
    (it : OrderItem) (hq : 0 < it.qty) : ∃ n : Nat, refLineAmount menu it = 5 * (n : ℚ) := by
  unfold refLineAmount refPrice
  cases h : refLookup menu it.code with
  | none => exact ⟨0, by simp⟩
  | some m =>
    have hm : m ∈ menu := by
      unfold refLookup at h
      exact List.mem_of_find?_eq_some h
    obtain ⟨n, _, hn⟩ := priceStep5_nat m.price (hprice m hm)
    refine ⟨n * it.qty.toNat, ?_⟩
    have hcast : ((it.qty.toNat : Nat) : ℚ) = (it.qty : ℚ) := by
      have : ((it.qty.toNat : Nat) : Int) = it.qty := Int.toNat_of_nonneg (le_of_lt hq)
      exact_mod_cast this
    simp only
    rw [hn]
    push_cast
    rw [hcast]
    ring

theorem refSum_mul5 (menu : List MenuItem) (hprice : ∀ m ∈ menu, PriceStep5 m.price)
    (items : List OrderItem) (hqty : ∀ it ∈ items, 0 < it.qty) :
    ∃ n : Nat, (items.map (refLineAmount menu)).sum = 5 * (n : ℚ) := by
  induction items with
  | nil => exact ⟨0, by simp⟩
  | cons it rest ih =>
    obtain ⟨n1, h1⟩ := refLineAmount_mul5 menu hprice it (hqty it (List.mem_cons_self _ _))
    obtain ⟨n2, h2⟩ := ih (fun x hx => hqty x (List.mem_cons_of_mem _ hx))
    refine ⟨n1 + n2, ?_⟩
    rw [List.map_cons, List.sum_cons, h1, h2]
    push_cast
    ring

/-- The loop of `calculateBill` is exact while the running subtotal stays a whole
number below `2 ^ 24`. -/
theorem billLoop_exact (menu : List MenuItem) (hprice : ∀ m ∈ menu, PriceStep5 m.price)
    (items : List OrderItem) (hqty : ∀ it ∈ items, 0 < it.qty) (a f : ℚ)
    (ha : ∃ n : Nat, a = 5 * (n : ℚ)) (hf : ∃ n : Nat, f = 5 * (n : ℚ)) (hfa : f ≤ a)
    (hsum : a + (items.map (refLineAmount menu)).sum < 16777216) :
    billLoop menu items (F32.fin a) (F32.fin f) =
      (F32.fin (a + (items.map (refLineAmount menu)).sum),
       F32.fin (f + ((items.filter (refIsFood menu)).map (refLineAmount menu)).sum)) ∧
    (∃ n : Nat, a + (items.map (refLineAmount menu)).sum = 5 * (n : ℚ)) ∧
    (∃ n : Nat,
      f + ((items.filter (refIsFood menu)).map (refLineAmount menu)).sum = 5 * (n : ℚ)) ∧
    f + ((items.filter (refIsFood menu)).map (refLineAmount menu)).sum
      ≤ a + (items.map (refLineAmount menu)).sum := by
  induction items generalizing a f with
  | nil =>
    simp only [billLoop, List.map_nil, List.sum_nil, List.filter_nil, add_zero]
    exact ⟨trivial, ha, hf, hfa⟩
  | cons it rest ih =>
    have hq := hqty it (List.mem_cons_self _ _)
    have hqrest : ∀ x ∈ rest, 0 < x.qty := fun x hx => hqty x (List.mem_cons_of_mem _ hx)
    obtain ⟨nr, hnr⟩ := refSum_mul5 menu hprice rest hqrest
    have hrest0 : 0 ≤ (rest.map (refLineAmount menu)).sum := by
      rw [hnr]; positivity
    obtain ⟨na, hna⟩ := ha
    obtain ⟨nf, hnf⟩ := hf
    have ha0 : 0 ≤ a := by rw [hna]; positivity
    rw [List.map_cons, List.sum_cons] at hsum
    rcases findMenuIndexByCode_spec menu it.code with ⟨h1, h2⟩ | ⟨h1, m, h2, h3, _⟩
    · -- the code does not resolve: the line is skipped
      have hamt : refLineAmount menu it = 0 := by
        simp [refLineAmount, refPrice, h2]
      have hfood : refIsFood menu it = false := by
        simp [refIsFood, h2]
      rw [hamt, zero_add] at hsum
      have := ih hqrest a f ⟨na, hna⟩ ⟨nf, hnf⟩ hfa hsum
      simp only [billLoop, h1, if_true, List.map_cons, List.sum_cons, hamt, zero_add,
        List.filter_cons, hfood]
      simpa using this
    · have hne : findMenuIndexByCode menu it.code ≠ -1 := by omega
      have hm : m ∈ menu := List.getElem?_mem h2
      have hamt : refLineAmount menu it = m.price * (it.qty : ℚ) := by
        simp [refLineAmount, refPrice, h3]
      obtain ⟨nl, hnl⟩ := refLineAmount_mul5 menu hprice it hq
      have hl0 : 0 ≤ refLineAmount menu it := by rw [hnl]; positivity
      have hline := (lineAmount_exact m.price it.qty (hprice m hm) hq
        (by rw [← hamt]; linarith)).1
      rw [← hamt] at hline
      have hadd : F32.add (F32.fin a) (F32.fin (refLineAmount menu it))
          = F32.fin (a + refLineAmount menu it) := by
        show F32.round (a + refLineAmount menu it) = _
        apply round_of_nat_val
        · exact ⟨5 * (na + nl), by rw [hna, hnl]; push_cast; ring⟩
        · linarith
      have haddf : F32.add (F32.fin f) (F32.fin (refLineAmount menu it))
          = F32.fin (f + refLineAmount menu it) := by
        show F32.round (f + refLineAmount menu it) = _
        apply round_of_nat_val
        · exact ⟨5 * (nf + nl), by rw [hnf, hnl]; push_cast; ring⟩
        · linarith
      by_cases hc : m.category = Category.BEVERAGE
      · have hfood : refIsFood menu it = false := by
          simp [refIsFood, h3, hc]
        have := ih hqrest (a + refLineAmount menu it) f
          ⟨na + nl, by rw [hna, hnl]; push_cast; ring⟩ ⟨nf, hnf⟩ (by linarith)
          (by linarith)
        simp only [billLoop, hne, if_false, h2, hline, hadd, hc, ne_eq, not_true,
          List.map_cons, List.sum_cons, List.filter_cons, hfood]
        simpa [add_assoc] using this
      · have hfood : refIsFood menu it = true := by
          simp [refIsFood, h3, hc]
        have := ih hqrest (a + refLineAmount menu it) (f + refLineAmount menu it)
          ⟨na + nl, by rw [hna, hnl]; push_cast; ring⟩
          ⟨nf + nl, by rw [hnf, hnl]; push_cast; ring⟩ (by linarith) (by linarith)
        simp only [billLoop, hne, if_false, h2, hline, hadd, haddf, hc, ne_eq,
          not_false_eq_true, if_true, List.map_cons, List.sum_cons, List.filter_cons, hfood]
        simpa [add_assoc] using this

set_option maxRecDepth 100000 in
theorem seed_priceStep5 : ∀ m ∈ initState.menuList, PriceStep5 m.price := by decide!

/-- In every reachable state the catalog prices are positive whole multiples of 5. -/
theorem reachable_priceStep5 (s : State) (h : Reachable s) :
    ∀ m ∈ s.menuList, PriceStep5 m.price := by
  intro m hm
  have hcat := reachable_catalogFixed s h
  have h1 : (m.code, m.name, m.category, m.price) ∈
      s.menuList.map (fun m => (m.code, m.name, m.category, m.price)) :=
    List.mem_map.2 ⟨m, hm, rfl⟩
  rw [hcat] at h1
  rcases List.mem_map.1 h1 with ⟨m0, hm0, heq⟩
  simp only [Prod.mk.injEq] at heq
  obtain ⟨_, _, _, hp⟩ := heq
  rw [← hp]
  exact seed_priceStep5 m0 hm0

/-- C2, as amended: for every stored order (so for every order whose lines all
resolve in the catalog), when the catalog prices are positive whole multiples of 5,
as all seed prices are, the quantities are positive and the exact subtotal is below
16777216 = 2^24, the charges of `calculateBill` are exactly the reference values:
subtotal is the sum over lines of price(code) * qty, gst is 0.05 times the sum of the
line amounts whose category is not Beverage, and service is 0.10 * subtotal for a
dine-in order and 0 for a takeaway order. -/
theorem calculateBill_charges_eq_reference (s : State) (orderIdx : Int) (o : Order)
    (hidx : 0 ≤ orderIdx) (ho : s.orders[orderIdx.toNat]? = some o)
    (hprice : ∀ m ∈ s.menuList, PriceStep5 m.price)
    (hqty : ∀ it ∈ o.items, 0 < it.qty)
    (hsum : refSubtotal s.menuList o < 16777216) :
    (calculateBill s orderIdx).subtotal = F32.fin (refSubtotal s.menuList o) ∧
    (calculateBill s orderIdx).gst = F32.fin (refGst s.menuList o) ∧
    (calculateBill s orderIdx).serviceCharge = F32.fin (refService s.menuList o) := by
  rw [calculateBill_of_order s orderIdx o hidx ho]
  unfold refSubtotal at hsum
  obtain ⟨hloop, ⟨n1, hn1⟩, ⟨n2, hn2⟩, hle⟩ := billLoop_exact s.menuList hprice o.items hqty 0 0
    ⟨0, by simp⟩ ⟨0, by simp⟩ (le_refl 0) (by rw [zero_add]; exact hsum)
  simp only [zero_add] at hloop hn1 hn2 hle
  have hn1lt : n1 < 16777216 := by
    have : (5 * (n1 : ℚ)) < 16777216 := by rw [← hn1]; exact hsum
    have h2 : ((n1 : Nat) : ℚ) < 16777216 := by
      have : (0 : ℚ) ≤ (n1 : ℚ) := by positivity
      linarith
    exact_mod_cast h2
  have hn2lt : n2 < 16777216 := by
    have : (5 * (n2 : ℚ)) < 16777216 := by rw [← hn2]; linarith
    have h2 : ((n2 : Nat) : ℚ) < 16777216 := by
      have : (0 : ℚ) ≤ (n2 : ℚ) := by positivity
      linarith
    exact_mod_cast h2
  have hgst : F32.mul (F32.fin (5 * (n2 : ℚ))) GST_RATE_FOOD = F32.fin (5 / 100 * (5 * (n2 : ℚ))) := by
    rw [GST_RATE_FOOD_eq]
    show F32.round (5 * (n2 : ℚ) * (13421773 / 268435456)) = _
    have e1 : 5 * (n2 : ℚ) * (13421773 / 268435456) = (n2 : ℚ) / 2 ^ 2 * (1 + 1 / 67108864) := by
      ring
    have e2 : 5 / 100 * (5 * (n2 : ℚ)) = (n2 : ℚ) / 2 ^ 2 := by ring
    rw [e1, e2]
    exact round_mul_one_add_eps n2 2 hn2lt (by norm_num)
  have hsvc : F32.mul (F32.fin (5 * (n1 : ℚ))) SERVICE_RATE = F32.fin (10 / 100 * (5 * (n1 : ℚ))) := by
    rw [SERVICE_RATE_eq]
    show F32.round (5 * (n1 : ℚ) * (13421773 / 134217728)) = _
    have e1 : 5 * (n1 : ℚ) * (13421773 / 134217728) = (n1 : ℚ) / 2 ^ 1 * (1 + 1 / 67108864) := by
      ring
    have e2 : 10 / 100 * (5 * (n1 : ℚ)) = (n1 : ℚ) / 2 ^ 1 := by ring
    rw [e1, e2]
    exact round_mul_one_add_eps n1 1 hn1lt (by norm_num)
  simp only [billOf, hloop]
  refine ⟨rfl, ?_, ?_⟩
  · rw [hn2, hgst]
    unfold refGst
    rw [hn2]
  · unfold refService refSubtotal
    by_cases hd : o.dineIn ≠ 0
    · rw [if_pos hd, if_pos hd, hn1, hsvc]
    · rw [if_neg hd, if_neg hd]

set_option maxRecDepth 100000 in
/-- Witness for C2: scenario 3 of the specification (subtotal 1760, gst 84 with the
beverage excluded, service 176). -/
theorem calculateBill_charges_eq_reference_witness :
    ((0 : Int) ≤ 0 ∧
      scenario3.orders[(0 : Int).toNat]?
        = some ⟨9001, 1, 1, [⟨"M06", 4⟩, ⟨"B04", 1⟩], 0, 1⟩ ∧
      (∀ m ∈ scenario3.menuList, PriceStep5 m.price) ∧
      (∀ it ∈ [(⟨"M06", 4⟩ : OrderItem), ⟨"B04", 1⟩], 0 < it.qty) ∧
      refSubtotal scenario3.menuList ⟨9001, 1, 1, [⟨"M06", 4⟩, ⟨"B04", 1⟩], 0, 1⟩
        < 16777216) ∧
    ((calculateBill scenario3 0).subtotal
        = F32.fin (refSubtotal scenario3.menuList
            ⟨9001, 1, 1, [⟨"M06", 4⟩, ⟨"B04", 1⟩], 0, 1⟩) ∧
      (calculateBill scenario3 0).gst
        = F32.fin (refGst scenario3.menuList ⟨9001, 1, 1, [⟨"M06", 4⟩, ⟨"B04", 1⟩], 0, 1⟩) ∧
      (calculateBill scenario3 0).serviceCharge
        = F32.fin (refService scenario3.menuList
            ⟨9001, 1, 1, [⟨"M06", 4⟩, ⟨"B04", 1⟩], 0, 1⟩)) ∧
    calculateBill scenario3 0
      = ⟨F32.fin 1760, F32.fin 84, F32.fin 176, F32.fin 303, F32.fin 1717⟩ := by
  have hp : ∀ m ∈ scenario3.menuList, PriceStep5 m.price := by decide!
  have hq : ∀ it ∈ [(⟨"M06", 4⟩ : OrderItem), ⟨"B04", 1⟩], 0 < it.qty := by decide
  have hs : refSubtotal scenario3.menuList ⟨9001, 1, 1, [⟨"M06", 4⟩, ⟨"B04", 1⟩], 0, 1⟩
      < 16777216 := by decide!
  exact ⟨⟨le_refl 0, scenario3_order, hp, hq, hs⟩,
    calculateBill_charges_eq_reference scenario3 0 _ (le_refl 0) scenario3_order hp hq hs,
    scenario3_bill⟩

set_option maxRecDepth 100000 in
/-- Counterexample to C2 as stated: the takeaway order `M05 × 95871` of a reachable
state resolves in the catalog; its reference subtotal is 350 * 95871 = 33554850 and
its reference gst 1677742.5, but the code returns subtotal 33554848 and gst
1677742.375 (= 13421939 / 8), the nearest binary32 values. -/
theorem calculateBill_charges_are_rounded :
    Reachable bigOrderSession ∧
    bigOrderSession.orders = [⟨9001, 0, 0, [⟨"M05", 95871⟩], 0, 1⟩] ∧
    "M05" ∈ bigOrderSession.menuList.map MenuItem.code ∧
    refSubtotal bigOrderSession.menuList ⟨9001, 0, 0, [⟨"M05", 95871⟩], 0, 1⟩ = 33554850 ∧
    refGst bigOrderSession.menuList ⟨9001, 0, 0, [⟨"M05", 95871⟩], 0, 1⟩ = 3355485 / 2 ∧
    (calculateBill bigOrderSession 0).subtotal = F32.fin 33554848 ∧
    (calculateBill bigOrderSession 0).gst = F32.fin (13421939 / 8) ∧
    ¬ ((calculateBill bigOrderSession 0).subtotal
        = F32.fin (refSubtotal bigOrderSession.menuList
            ⟨9001, 0, 0, [⟨"M05", 95871⟩], 0, 1⟩)) ∧
    ¬ ((calculateBill bigOrderSession 0).gst
        = F32.fin (refGst bigOrderSession.menuList
            ⟨9001, 0, 0, [⟨"M05", 95871⟩], 0, 1⟩)) :=
  ⟨reachable_run _ _ Reachable.init (by decide), by decide, by decide, by decide!, by decide!,
    by decide!, by decide!, by decide!, by decide!⟩

end RestaurantBilling
